import Mathlib

/-!
# Car / fob firmware: shallow embedding

Bytes (`uint8_t`) are natural numbers; a C object (an array or a struct of
`uint8_t` fields, which has no padding) is the list of its bytes.  A pointer
into an object is an offset into that list.  Functions that can run off the
end of an object, or wait for input that never comes, return `none` (fob) or a
`Status` other than `returned` (car).
-/

set_option maxRecDepth 100000

namespace ECTF

/-! ## Constants of `board_link.h`, `feature_list.h` and the two `firmware.c` -/

def ACK_SUCCESS : Nat := 1
def ACK_FAIL : Nat := 0
def ACK_MAGIC : Nat := 0x54
def PAIR_MAGIC : Nat := 0x55
def UNLOCK_MAGIC : Nat := 0x56
def START_MAGIC : Nat := 0x57
def NUM_FEATURES : Nat := 3
def FEATURE_END : Nat := 0x7C0
def FEATURE_SIZE : Nat := 64
def UNLOCK_EEPROM_LOC : Nat := 0x7C0
def UNLOCK_EEPROM_SIZE : Nat := 64
def FLASH_PAIRED : Nat := 0x00
def FLASH_UNPAIRED : Nat := 0xFF

/-- Message between boards (`board_link.h`): `buffer` holds the payload bytes. -/
structure MESSAGE_PACKET where
  magic : Nat
  message_len : Nat
  buffer : List Nat
deriving DecidableEq, Repr

/-! ## C library and drivers -/

/-- C `strcmp` on two objects, each given as the bytes from the pointer to the
end of its object: the difference of the first two differing bytes, `0` when
both strings end together, `none` when the comparison runs off the end of an
object first. -/
def strcmp : List Nat → List Nat → Option Int
  | a :: as, b :: bs =>
    if a = b then (if a = 0 then some 0 else strcmp as bs)
    else some ((a : Int) - (b : Int))
  | _, _ => none

/-- Index of the first NUL byte of the object, `none` when there is none. -/
def strlen : List Nat → Option Nat
  | [] => none
  | a :: as => if a = 0 then some 0 else (strlen as).map (· + 1)

/-- Store `data` at offset `off` of the object `obj`; `none` when the bytes do
not fit in the object. -/
def store (obj : List Nat) (off : Nat) (data : List Nat) : Option (List Nat) :=
  if off + data.length ≤ obj.length then
    some (obj.take off ++ data ++ obj.drop (off + data.length))
  else none

/-- C `strcpy (obj + d, obj + s)` inside one object: copies the string at
offset `s`, its NUL included, to offset `d`; `none` when the source has no NUL
inside the object, when the copy does not fit, or when the two overlap. -/
def strcpy (obj : List Nat) (d s : Nat) : Option (List Nat) :=
  match strlen (obj.drop s) with
  | none => none
  | some n =>
    if s + n < d ∨ d + n < s then store obj d ((obj.drop s).take (n + 1)) else none

/-- C `strcpy (obj + d, literal)` from a string literal, whose bytes `literal`
are followed by a NUL, into the object `obj` at offset `d`; `none` when the
copy does not fit in the object. -/
def strcpy_literal (obj : List Nat) (d : Nat) (literal : List Nat) : Option (List Nat) :=
  match strlen (literal ++ [0]) with
  | none => none
  | some n => store obj d ((literal ++ [0]).take (n + 1))

/-- `uart_readline` of `uart.c` on the bytes still to come from the UART: the
buffer after the call, the number of bytes read and the bytes left on the
UART.  `none` when no line end arrives or a byte is stored past the buffer. -/
def uart_readline : List Nat → List Nat → Nat → Option (List Nat × Nat × List Nat)
  | [], _, _ => none
  | c :: rest, buf, read =>
    if c ≠ 13 ∧ c ≠ 10 ∧ c ≠ 0xD then
      if read < buf.length then uart_readline rest (buf.set read c) (read + 1) else none
    else
      if read < buf.length then some (buf.set read 0, read, rest) else none

/-- Modelled from the spec: `receive_board_message_by_type` of `board_link.c`,
which is not among the sources.  Messages whose type is not the expected one
are discarded and the first match is returned with the messages after it;
`none` when no such message arrives. -/
def receive_board_message_by_type :
    List MESSAGE_PACKET → Nat → Option (MESSAGE_PACKET × List MESSAGE_PACKET)
  | [], _ => none
  | p :: rest, type =>
    if p.magic = type then some (p, rest) else receive_board_message_by_type rest type

/-- Modelled from the spec: `send_board_message` of `board_link.c`, which is
not among the sources.  The framed message carries `message_len` bytes read
from the buffer pointer. -/
def send_board_message (magic message_len : Nat) (buffer : List Nat) : MESSAGE_PACKET :=
  ⟨magic, message_len, buffer.take message_len⟩

/-- Modelled from the spec: `EEPROMRead` of the storage driver, a read of
`count` bytes at a byte address of a byte-addressable device. -/
def EEPROMRead (eeprom : Nat → Nat) (address count : Nat) : List Nat :=
  (List.range count).map (fun j => eeprom (address + j))

/-! ## Car (`car/src/firmware.c`) -/

namespace Car

inductive Status
  | returned
  | blocked
  | undefined
deriving DecidableEq, Repr

/-- What a car function did: board messages sent, `uart_write` calls on the
host UART, EEPROM reads (address, count), how it ended, and the messages it
left unread. -/
structure Out where
  link : List MESSAGE_PACKET
  host : List (List Nat)
  reads : List (Nat × Nat)
  status : Status
  rest : List MESSAGE_PACKET
deriving DecidableEq, Repr

def aseiFuengleR : List Nat :=
  [0x1ffe4b6,0x3098ac,0x2f56101,0x11a38bb,0x485124,0x11644a7,0x3c74e8,0x3c74e8,
   0x2f56101,0x2ca498,0xeac7cb,0x2e590b1,0x1fbf0a2,0x51bd0,0x51bd0,0x1fbf0a2,
   0x127bc,0x2b61fc1,0x2ba13d5,0xeac7cb,0x11a38bb,0x2e590b1,0x127bc,0x127bc,
   0xeac7cb,0x11644a7,0x2179d2e,0]

def djFIehjkklIH : List Nat :=
  [0x138e798,0x2cdbb14,0x1f9f376,0x23bcfda,0x1d90544,0x1cad2d2,0x860e2c,0x860e2c,
   0x1f9f376,0x25cbe0c,0x8a977a,0x35ff56,0xc7ea90,0x18d7fbc,0x18d7fbc,0xc7ea90,
   0x11c82b4,0x21f6af6,0x29067fe,0x8a977a,0x23bcfda,0x35ff56,0x11c82b4,0x11c82b4,
   0x8a977a,0x1cad2d2,0x4431c8,0]

/-- The `while (x-- != 0)` loop of `siNfidpL`, on 32-bit unsigned arithmetic. -/
def siNfidpLLoop : Nat → Nat → Nat
  | 0, v => v
  | x + 1, v => siNfidpLLoop x (((13 * v + 1361423303) % 2 ^ 32) % 0x39aa400)

def siNfidpL (verLKUDSfj : Nat) : Nat :=
  siNfidpLLoop (2253667944 % 0x432a1f32) ((verLKUDSfj + 0x12345678) % 60466176)

/-- The `while (f-- != 0)` loop of `deobfuscate`, on 32-bit unsigned arithmetic. -/
def deobfuscateLoop : Nat → Nat → Nat → Nat × Nat
  | 0, ke, we => (ke, we)
  | f + 1, ke, we =>
    let we1 := ((we + 2 ^ 32 - siNfidpL ke) % 2 ^ 32) % 0x39aa400
    let ke1 := ((ke + 2 ^ 32 - siNfidpL we1) % 2 ^ 32) % 60466176
    deobfuscateLoop f ke1 we1

def deobfuscate (veruioPjfke veruioPjfwe : Nat) : Nat :=
  let r := deobfuscateLoop (2253667944 % 0x432a1f32) veruioPjfke veruioPjfwe
  let veruicPjfwe := ((r.1 + 0x39aa400) % 2 ^ 32) % 60466176
  let verulcPjfwe := ((r.2 + 60466176) % 2 ^ 32) % 0x39aa400
  ((veruicPjfwe * 60466176 + verulcPjfwe + 2 ^ 32 - 89) % 2 ^ 32) % 256

/-- The `flag` buffer after the loop `for (i = 0; aseiFuengleR[i]; i++)`. -/
def flag : List Nat :=
  ((aseiFuengleR.zip djFIehjkklIH).takeWhile (fun p => p.1 ≠ 0)).map
    (fun p => deobfuscate p.1 p.2) ++ [0]

def sendAckSuccess : MESSAGE_PACKET := send_board_message ACK_MAGIC 1 [ACK_SUCCESS]

def sendAckFailure : MESSAGE_PACKET := send_board_message ACK_MAGIC 1 [ACK_FAIL]

/-- The loop `for (i = 0; i < feature_info->num_active; i++)` of `startCar`
from index `i` with `k` rounds to go; `features[i]` is byte `9 + i` of the
receive buffer. -/
def startLoop (eeprom : Nat → Nat) (buffer : List Nat) (rest : List MESSAGE_PACKET) :
    Nat → Nat → Out
  | _, 0 => ⟨[], [], [], Status.returned, rest⟩
  | i, k + 1 =>
    match buffer[9 + i]? with
    | none => ⟨[], [], [], Status.undefined, rest⟩
    | some f =>
      let offset := (f * FEATURE_SIZE) % 2 ^ 32
      let address := (FEATURE_END + 2 ^ 32 - offset) % 2 ^ 32
      let eeprom_message := EEPROMRead eeprom address FEATURE_SIZE
      let r := startLoop eeprom buffer rest (i + 1) k
      ⟨r.link, eeprom_message :: r.host, (address, FEATURE_SIZE) :: r.reads, r.status, r.rest⟩

/-- `startCar` of the car.  `CAR_ID` is the string literal of `secrets.h`,
`stack` the 256 bytes of the uninitialised receive buffer. -/
def startCar (CAR_ID : List Nat) (eeprom : Nat → Nat) (stack : List Nat)
    (link : List MESSAGE_PACKET) : Out :=
  match receive_board_message_by_type link START_MAGIC with
  | none => ⟨[], [], [], Status.blocked, []⟩
  | some (message, rest) =>
    match store stack 0 (message.buffer.take message.message_len) with
    | none => ⟨[], [], [], Status.undefined, rest⟩
    | some buffer =>
      match strcmp (CAR_ID ++ [0]) buffer with
      | none => ⟨[], [], [], Status.undefined, rest⟩
      | some c =>
        if c ≠ 0 then ⟨[], [], [], Status.returned, rest⟩
        else
          match buffer[8]? with
          | none => ⟨[], [], [], Status.undefined, rest⟩
          | some num_active => startLoop eeprom buffer rest 0 num_active

/-- `unlockCar` of the car.  `PASSWORD` and `CAR_ID` are the string literals of
`secrets.h`; `stack` and `stack2` are the uninitialised receive buffers of
`unlockCar` and `startCar`. -/
def unlockCar (PASSWORD CAR_ID : List Nat) (eeprom : Nat → Nat) (stack stack2 : List Nat)
    (link : List MESSAGE_PACKET) : Out :=
  match receive_board_message_by_type link UNLOCK_MAGIC with
  | none => ⟨[], [], [], Status.blocked, []⟩
  | some (message, rest) =>
    match store stack 0 (message.buffer.take message.message_len) with
    | none => ⟨[], [], [], Status.undefined, rest⟩
    | some buffer =>
      if message.message_len < buffer.length then
        match strcmp (buffer.set message.message_len 0) (PASSWORD ++ [0]) with
        | none => ⟨[], [], [], Status.undefined, rest⟩
        | some c =>
          if c = 0 then
            let eeprom_message := EEPROMRead eeprom UNLOCK_EEPROM_LOC UNLOCK_EEPROM_SIZE
            let eeprom_message := eeprom_message.take (UNLOCK_EEPROM_SIZE - 28) ++ flag
            let r := startCar CAR_ID eeprom stack2 rest
            ⟨sendAckSuccess :: r.link, eeprom_message :: r.host,
              (UNLOCK_EEPROM_LOC, UNLOCK_EEPROM_SIZE) :: r.reads, r.status, r.rest⟩
          else ⟨[sendAckFailure], [], [], Status.returned, rest⟩
      else ⟨[], [], [], Status.undefined, rest⟩

end Car

/-! ## Fob (`fob/src/firmware.c`)

`FLASH_DATA` is 37 bytes: `paired` at offset 0, `pair_info` at 1 (`car_id` 1,
`password` 9, `pin` 17), `feature_info` at 25 (`car_id` 25, `num_active` 33,
`features` 34 to 36). -/

namespace Fob

def sizeof_PAIR_PACKET : Nat := 24
def sizeof_FEATURE_DATA : Nat := 12
def sizeof_FLASH_DATA : Nat := 37

def paired (s : List Nat) : Nat := s.getD 0 0
def pair_info (s : List Nat) : List Nat := (s.drop 1).take 24
def car_id (s : List Nat) : List Nat := (s.drop 1).take 8
def password (s : List Nat) : List Nat := (s.drop 9).take 8
def pin (s : List Nat) : List Nat := (s.drop 17).take 8
def feature_info (s : List Nat) : List Nat := (s.drop 25).take 12
def feature_car_id (s : List Nat) : List Nat := (s.drop 25).take 8
def num_active (s : List Nat) : Nat := s.getD 33 0
def features (s : List Nat) : List Nat := (s.drop 34).take 3

/-- What a fob function did: the record in RAM afterwards, board messages
sent, `uart_write` calls on the host UART, the records handed to
`saveFobState`, and the input left unread. -/
structure Out where
  fob_state_ram : List Nat
  link : List MESSAGE_PACKET
  host : List (List Nat)
  saved : List (List Nat)
  host_in : List Nat
  link_in : List MESSAGE_PACKET
deriving DecidableEq, Repr

/-- The bytes of `"Enter pin: "`, `"Paired"` and `"Enabled"`. -/
def str_Enter_pin : List Nat := [69, 110, 116, 101, 114, 32, 112, 105, 110, 58, 32]
def str_Paired : List Nat := [80, 97, 105, 114, 101, 100]
def str_Enabled : List Nat := [69, 110, 97, 98, 108, 101, 100]

/-- `pairFob`.  `host_in` are the bytes to come on the host UART, `link_in`
the board messages to come, `stack` the 8 uninitialised bytes of
`uart_buffer`. -/
def pairFob (fob_state_ram : List Nat) (host_in : List Nat) (link_in : List MESSAGE_PACKET)
    (stack : List Nat) : Option Out :=
  if paired fob_state_ram = FLASH_PAIRED then
    match uart_readline host_in stack 0 with
    | none => none
    | some (uart_buffer, bytes_read, host_rest) =>
      if bytes_read = 6 then
        match strcmp uart_buffer (fob_state_ram.drop 17) with
        | none => none
        | some c =>
          if c = 0 then
            some ⟨fob_state_ram,
              [send_board_message PAIR_MAGIC sizeof_PAIR_PACKET (fob_state_ram.drop 1)],
              [str_Enter_pin], [], host_rest, link_in⟩
          else some ⟨fob_state_ram, [], [str_Enter_pin], [], host_rest, link_in⟩
      else some ⟨fob_state_ram, [], [str_Enter_pin], [], host_rest, link_in⟩
  else
    match receive_board_message_by_type link_in PAIR_MAGIC with
    | none => none
    | some (message, link_rest) =>
      match store fob_state_ram 1 (message.buffer.take message.message_len) with
      | none => none
      | some s1 =>
        match strcpy (s1.set 0 FLASH_PAIRED) 25 1 with
        | none => none
        | some s2 => some ⟨s2, [], [str_Paired], [s2], host_in, link_rest⟩

/-- The search loop of `enableFeature` from index `i` with `k` rounds to go:
`some true` when `features[i]` equals `feature` for some visited `i`. -/
def searchFeature (fob_state_ram : List Nat) (feature : Nat) : Nat → Nat → Option Bool
  | _, 0 => some false
  | i, k + 1 =>
    match fob_state_ram[34 + i]? with
    | none => none
    | some x => if x = feature then some true else searchFeature fob_state_ram feature (i + 1) k

/-- The part of `enableFeature` after the call of `uart_readline`, on the
contents of `uart_buffer`, which is read as an `ENABLE_PACKET`: `car_id` at
offset 0 and `feature` at offset 8. -/
def enableFeatureAfterRead (fob_state_ram uart_buffer host_rest : List Nat)
    (link_in : List MESSAGE_PACKET) : Option Out :=
  match strcmp (fob_state_ram.drop 1) uart_buffer with
  | none => none
  | some c =>
    if c ≠ 0 then some ⟨fob_state_ram, [], [], [], host_rest, link_in⟩
    else if num_active fob_state_ram = NUM_FEATURES then
      some ⟨fob_state_ram, [], [], [], host_rest, link_in⟩
    else
      match searchFeature fob_state_ram (uart_buffer.getD 8 0) 0 (num_active fob_state_ram) with
      | none => none
      | some true => some ⟨fob_state_ram, [], [], [], host_rest, link_in⟩
      | some false =>
        if 34 + num_active fob_state_ram < fob_state_ram.length then
          let s1 := fob_state_ram.set (34 + num_active fob_state_ram) (uart_buffer.getD 8 0)
          let s2 := s1.set 33 ((num_active fob_state_ram + 1) % 256)
          some ⟨s2, [], [str_Enabled], [s2], host_rest, link_in⟩
        else none

/-- `enableFeature`.  `stack` is the 20 uninitialised bytes of `uart_buffer`. -/
def enableFeature (fob_state_ram : List Nat) (host_in : List Nat)
    (link_in : List MESSAGE_PACKET) (stack : List Nat) : Option Out :=
  if paired fob_state_ram = FLASH_PAIRED then
    match uart_readline host_in stack 0 with
    | none => none
    | some (uart_buffer, _, host_rest) =>
      enableFeatureAfterRead fob_state_ram uart_buffer host_rest link_in
  else some ⟨fob_state_ram, [], [], [], host_in, link_in⟩

/-- `unlockCar` of the fob. -/
def unlockCar (fob_state_ram : List Nat) (host_in : List Nat)
    (link_in : List MESSAGE_PACKET) : Out :=
  if paired fob_state_ram = FLASH_PAIRED then
    ⟨fob_state_ram, [send_board_message UNLOCK_MAGIC 6 (fob_state_ram.drop 9)], [], [],
      host_in, link_in⟩
  else ⟨fob_state_ram, [], [], [], host_in, link_in⟩

/-- `startCar` of the fob. -/
def startCar (fob_state_ram : List Nat) (host_in : List Nat)
    (link_in : List MESSAGE_PACKET) : Out :=
  if paired fob_state_ram = FLASH_PAIRED then
    ⟨fob_state_ram, [send_board_message START_MAGIC sizeof_FEATURE_DATA (fob_state_ram.drop 25)],
      [], [], host_in, link_in⟩
  else ⟨fob_state_ram, [], [], [], host_in, link_in⟩

/-- The fob after the boot sequence of `main`: the record in RAM, the record
in flash at `FOB_STATE_PTR`, and the records handed to `saveFobState`, in
order. -/
structure Boot where
  fob_state_ram : List Nat
  fob_state_flash : List Nat
  saved : List (List Nat)
deriving DecidableEq, Repr

/-- The boot sequence of `main`, up to `uart_init`.  `PAIRED`, `PASSWORD`,
`PAIR_PIN` and `CAR_ID` are the macros of the build, `fob_state_flash` is the
record found in flash and `fob_state_ram` the uninitialised content of the
local record.  `saveFobState` erases the flash page and programs the record,
so the flash record is then the record saved; `FLASH_DATA_SIZE` rounds the 37
bytes of the record up to 40, and the three bytes after the record are not
part of the model. -/
def boot (PAIRED : Nat) (PASSWORD PAIR_PIN CAR_ID : List Nat)
    (fob_state_flash fob_state_ram : List Nat) : Option Boot :=
  let initialised : Option Boot :=
    if PAIRED = 1 ∧ paired fob_state_flash = FLASH_UNPAIRED then
      match strcpy_literal fob_state_ram 9 PASSWORD with
      | none => none
      | some r1 =>
        match strcpy_literal r1 17 PAIR_PIN with
        | none => none
        | some r2 =>
          match strcpy_literal r2 1 CAR_ID with
          | none => none
          | some r3 =>
            match strcpy_literal r3 25 CAR_ID with
            | none => none
            | some r4 => some ⟨r4.set 0 FLASH_PAIRED, r4.set 0 FLASH_PAIRED, [r4.set 0 FLASH_PAIRED]⟩
    else some ⟨fob_state_ram, fob_state_flash, []⟩
  match initialised with
  | none => none
  | some b1 =>
    let b2 : Boot :=
      if paired b1.fob_state_flash = FLASH_PAIRED then
        ⟨b1.fob_state_flash, b1.fob_state_flash, b1.saved⟩
      else b1
    if num_active b2.fob_state_ram = 0xFF then
      some ⟨b2.fob_state_ram.set 33 0, b2.fob_state_ram.set 33 0,
        b2.saved ++ [b2.fob_state_ram.set 33 0]⟩
    else some b2

/-- One call of a fob operation from the main loop, with the input it finds:
the bytes to come on the host UART, the board messages to come, and the
uninitialised contents of its local `uart_buffer`. -/
inductive Op
  | pair (host_in : List Nat) (link_in : List MESSAGE_PACKET) (stack : List Nat)
  | enable (host_in : List Nat) (link_in : List MESSAGE_PACKET) (stack : List Nat)
  | unlock (host_in : List Nat) (link_in : List MESSAGE_PACKET)
  | start (host_in : List Nat) (link_in : List MESSAGE_PACKET)

/-- The result of one fob operation on the record `fob_state_ram`. -/
def step (fob_state_ram : List Nat) : Op → Option Out
  | Op.pair host_in link_in stack => pairFob fob_state_ram host_in link_in stack
  | Op.enable host_in link_in stack => enableFeature fob_state_ram host_in link_in stack
  | Op.unlock host_in link_in => some (unlockCar fob_state_ram host_in link_in)
  | Op.start host_in link_in => some (startCar fob_state_ram host_in link_in)

/-- The record after a sequence of fob operations. -/
def run (fob_state_ram : List Nat) : List Op → Option (List Nat)
  | [] => some fob_state_ram
  | op :: ops =>
    match step fob_state_ram op with
    | none => none
    | some out => run out.fob_state_ram ops

/-- The FeatureState invariant of the spec: `active_count` is at most the
number of feature slots and the first `active_count` feature ids are
distinct. -/
def FeatureInv (s : List Nat) : Prop :=
  num_active s ≤ NUM_FEATURES ∧ ((features s).take (num_active s)).Nodup

/-- A byte that ends a line for `uart_readline`. -/
def lineEnd (c : Nat) : Prop := c = 10 ∨ c = 13

/-- The host UART delivers a complete line of fewer than `n` bytes and the
local `uart_buffer` has `n` bytes, so that the line and its NUL fit. -/
def lineFits (host_in stack : List Nat) (n : Nat) : Prop :=
  ∃ line t rest, host_in = line ++ t :: rest ∧ (∀ b ∈ line, b ≠ 10 ∧ b ≠ 13) ∧ lineEnd t ∧
    line.length < n ∧ stack.length = n

/-- The first PAIR message on the board link has a payload of 24 bytes whose
`car_id` holds a NUL byte. -/
def pairMessageOk (link_in : List MESSAGE_PACKET) : Prop :=
  ∃ payload rest k, receive_board_message_by_type link_in PAIR_MAGIC
      = some (⟨PAIR_MAGIC, 24, payload⟩, rest) ∧
    payload.length = 24 ∧ strlen (payload.take 8) = some k

/-- An operation that, when it is `pairFob` on a fob that is not paired, finds
such a PAIR message. -/
def pairInputOk (fob_state_ram : List Nat) : Op → Prop
  | Op.pair _ link_in _ => paired fob_state_ram = FLASH_PAIRED ∨ pairMessageOk link_in
  | _ => True

/-- The operation is a call of `enableFeature`. -/
def isEnable : Op → Prop
  | Op.enable _ _ _ => True
  | _ => False

/-- The operator line that `pairFob` or `enableFeature` reads on a paired fob
is complete and fits the local `uart_buffer` of the operation. -/
def lineInputFits (fob_state_ram : List Nat) : Op → Prop
  | Op.pair host_in _ stack => paired fob_state_ram = FLASH_PAIRED → lineFits host_in stack 8
  | Op.enable host_in _ stack => paired fob_state_ram = FLASH_PAIRED → lineFits host_in stack 20
  | _ => True

/-- A call of `enableFeature` whose line is complete and fits `uart_buffer`. -/
def isFittingEnable : Op → Prop
  | Op.enable host_in _ stack => lineFits host_in stack 20
  | _ => False

/-- The input of an operation on a paired fob stays inside the local buffers
of the operation. -/
def inputFits (fob_state_ram : List Nat) : Op → Prop
  | Op.pair host_in _ stack => lineFits host_in stack 8
  | Op.enable host_in _ stack =>
    lineFits host_in stack 20 ∧ num_active fob_state_ram ≤ NUM_FEATURES
  | Op.unlock _ _ => True
  | Op.start _ _ => True

end Fob

end ECTF

/-! ## Lemmas on the C library model -/

namespace ECTF

theorem takeWhile_split (p t : List Nat) :
    ∃ u, p ++ 0 :: t = p.takeWhile (· ≠ 0) ++ 0 :: u := by
  induction p with
  | nil => exact ⟨t, by simp⟩
  | cons a p ih =>
    obtain ⟨u, hu⟩ := ih
    by_cases ha : a = 0
    · subst ha
      exact ⟨p ++ 0 :: t, by simp⟩
    · exact ⟨u, by simp [List.takeWhile_cons, ha, hu]⟩

theorem takeWhile_ne_zero (p : List Nat) : ∀ b ∈ p.takeWhile (· ≠ 0), b ≠ 0 := by
  intro b hb
  have := List.mem_takeWhile_imp hb
  simpa using this

theorem takeWhile_of_ne_zero (p : List Nat) (h : ∀ b ∈ p, b ≠ 0) :
    p.takeWhile (· ≠ 0) = p := by
  rw [List.takeWhile_eq_self_iff]
  intro b hb
  simpa using h b hb

/-- On two NUL-terminated strings `strcmp` is defined and is `0` exactly when
the strings are equal. -/
theorem strcmp_terminated (x : List Nat) :
    ∀ (y t u : List Nat), (∀ b ∈ x, b ≠ 0) → (∀ b ∈ y, b ≠ 0) →
      ∃ c, strcmp (x ++ 0 :: t) (y ++ 0 :: u) = some c ∧ (c = 0 ↔ x = y) := by
  induction x with
  | nil =>
    intro y t u _ hy
    cases y with
    | nil => exact ⟨0, by simp [strcmp]⟩
    | cons b y =>
      have hb : b ≠ 0 := hy b (by simp)
      refine ⟨((0 : Nat) : Int) - (b : Int), ?_, ?_⟩
      · simp [strcmp, Ne.symm hb]
      · simp; omega
  | cons a x ih =>
    intro y t u hx hy
    have ha : a ≠ 0 := hx a (by simp)
    have hx1 : ∀ b ∈ x, b ≠ 0 := fun b hb => hx b (by simp [hb])
    cases y with
    | nil =>
      refine ⟨(a : Int) - ((0 : Nat) : Int), ?_, ?_⟩
      · simp [strcmp, ha]
      · simp; omega
    | cons b y =>
      have hy1 : ∀ c ∈ y, c ≠ 0 := fun c hc => hy c (by simp [hc])
      by_cases hab : a = b
      · subst hab
        obtain ⟨c, hc, hiff⟩ := ih y t u hx1 hy1
        refine ⟨c, ?_, ?_⟩
        · simp [strcmp, ha, hc]
        · simp [hiff]
      · refine ⟨(a : Int) - (b : Int), ?_, ?_⟩
        · simp [strcmp, hab]
        · simp [hab]; omega

/-- The general form: `strcmp` compares the bytes before the first NUL. -/
theorem strcmp_nul (p q t u : List Nat) :
    ∃ c, strcmp (p ++ 0 :: t) (q ++ 0 :: u) = some c ∧
      (c = 0 ↔ p.takeWhile (· ≠ 0) = q.takeWhile (· ≠ 0)) := by
  obtain ⟨t1, h1⟩ := takeWhile_split p t
  obtain ⟨u1, h2⟩ := takeWhile_split q u
  rw [h1, h2]
  exact strcmp_terminated _ _ _ _ (takeWhile_ne_zero p) (takeWhile_ne_zero q)

theorem store_zero (stack p : List Nat) (h : p.length ≤ stack.length) :
    store stack 0 p = some (p ++ stack.drop p.length) := by
  simp [store, h]

theorem set_append_drop (stack p : List Nat) (h : p.length < stack.length) :
    (p ++ stack.drop p.length).set p.length 0 = p ++ 0 :: stack.drop (p.length + 1) := by
  rw [List.set_append_right _ _ (le_refl _)]
  simp only [Nat.sub_self]
  rw [List.drop_eq_getElem_cons h]
  simp [List.set]

theorem Car.startLoop_link (eeprom : Nat → Nat) (buffer : List Nat)
    (rest : List MESSAGE_PACKET) (k : Nat) :
    ∀ i, (Car.startLoop eeprom buffer rest i k).link = [] := by
  induction k with
  | zero => intro i; rfl
  | succ k ih =>
    intro i
    unfold Car.startLoop
    cases buffer[9 + i]? with
    | none => rfl
    | some f => exact ih (i + 1)

theorem Car.startCar_link (CAR_ID : List Nat) (eeprom : Nat → Nat) (stack : List Nat)
    (link : List MESSAGE_PACKET) : (Car.startCar CAR_ID eeprom stack link).link = [] := by
  unfold Car.startCar
  split
  · rfl
  · split
    · rfl
    · split
      · rfl
      · split
        · rfl
        · split
          · rfl
          · exact Car.startLoop_link _ _ _ _ _

/-- What the car's `unlockCar` sends on the board link for an UNLOCK message
of declared length `n` whose bytes are `b`. -/
theorem Car.unlockCar_link_eq (PASSWORD CAR_ID : List Nat) (eeprom : Nat → Nat)
    (stack stack2 : List Nat) (n : Nat) (b : List Nat) (rest : List MESSAGE_PACKET)
    (hstack : stack.length = 256) (hn : n ≤ 255) (hb : n ≤ b.length) :
    (Car.unlockCar PASSWORD CAR_ID eeprom stack stack2 (⟨UNLOCK_MAGIC, n, b⟩ :: rest)).link
      = [if (b.take n).takeWhile (· ≠ 0) = PASSWORD.takeWhile (· ≠ 0)
          then Car.sendAckSuccess else Car.sendAckFailure] := by
  have hpl : (b.take n).length = n := by simp [hb]
  have hlt : (b.take n).length < stack.length := by omega
  obtain ⟨c, hc, hiff⟩ :=
    strcmp_nul (b.take n) PASSWORD (stack.drop ((b.take n).length + 1)) []
  have hlen : (b.take n ++ List.drop (b.take n).length stack).length = stack.length := by
    simp; omega
  have hset := set_append_drop stack (b.take n) hlt
  rw [hpl] at hset hlen
  have hlt2 : n < stack.length := by omega
  simp only [Car.unlockCar, receive_board_message_by_type, if_true,
    store_zero stack (b.take n) (le_of_lt hlt), hpl, hlen, hlt2, hset]
  rw [hpl] at hc
  have hP : PASSWORD ++ [0] = PASSWORD ++ 0 :: [] := rfl
  rw [hP, hc]
  dsimp only
  by_cases h0 : c = 0
  · rw [if_pos h0, if_pos (hiff.mp h0)]
    simp only [Car.startCar_link]
  · rw [if_neg h0, if_neg (fun h => h0 (hiff.mpr h))]

theorem takeWhile_take_terminated (P : List Nat) :
    ∀ (w : List Nat) (n : Nat), P.length ≤ n →
      ((P ++ 0 :: w).take n).takeWhile (· ≠ 0) = P.takeWhile (· ≠ 0) := by
  induction P with
  | nil =>
    intro w n _
    cases n with
    | zero => rfl
    | succ n => simp
  | cons a P ih =>
    intro w n hn
    cases n with
    | zero => simp at hn
    | succ n =>
      have hn1 : P.length ≤ n := by simpa using hn
      by_cases ha : a = 0
      · simp [List.takeWhile_cons, ha]
      · have := ih w n hn1
        simp only [List.cons_append, List.take_succ_cons, List.takeWhile_cons]
        simp only [ha, ne_eq, not_false_eq_true, decide_True, if_true]
        rw [this]

/-! ## C1: the car's unlock handler -/

/-- C1 as stated fails: with the compiled-in password "unlock", the payload
"unlock" followed by a NUL byte and the byte 65 differs from the password and
is answered with ACK(success). -/
theorem C1_extended_payload_accepted :
    [117, 110, 108, 111, 99, 107, 0, 65] ≠ [117, 110, 108, 111, 99, 107] ∧
    (Car.unlockCar [117, 110, 108, 111, 99, 107] [53] (fun _ => 0)
      (List.replicate 256 0) (List.replicate 256 0)
      [⟨UNLOCK_MAGIC, 8, [117, 110, 108, 111, 99, 107, 0, 65]⟩]).link
      = [Car.sendAckSuccess] := by
  decide

/-- C1, amended: for every compiled-in password and every UNLOCK payload `p`
of a declared length up to 255, the car answers ACK(success) when the bytes of
`p` before its first NUL byte (all of `p` when it has none) are those of the
password, and ACK(failure) otherwise; when neither holds a NUL byte, that is
ACK(success) for `p = PASSWORD` and ACK(failure) for every other `p`,
truncations and extensions included. -/
theorem C1_unlock_ack (PASSWORD CAR_ID : List Nat) (eeprom : Nat → Nat)
    (stack stack2 p : List Nat) (rest : List MESSAGE_PACKET)
    (hstack : stack.length = 256) (hp : p.length ≤ 255) :
    (Car.unlockCar PASSWORD CAR_ID eeprom stack stack2
        (⟨UNLOCK_MAGIC, p.length, p⟩ :: rest)).link
      = [if p.takeWhile (· ≠ 0) = PASSWORD.takeWhile (· ≠ 0)
          then Car.sendAckSuccess else Car.sendAckFailure] ∧
    ((∀ b ∈ p, b ≠ 0) → (∀ b ∈ PASSWORD, b ≠ 0) →
      (Car.unlockCar PASSWORD CAR_ID eeprom stack stack2
        (⟨UNLOCK_MAGIC, p.length, p⟩ :: rest)).link
      = [if p = PASSWORD then Car.sendAckSuccess else Car.sendAckFailure]) := by
  have hmain := Car.unlockCar_link_eq PASSWORD CAR_ID eeprom stack stack2 p.length p rest
    hstack hp (le_refl _)
  rw [List.take_length] at hmain
  refine ⟨hmain, ?_⟩
  intro h1 h2
  rw [hmain, takeWhile_of_ne_zero p h1, takeWhile_of_ne_zero PASSWORD h2]

/-- C1, the amended claim at a concrete input: the password "unlock" against
the payload "unlocks". -/
theorem C1_unlock_ack_witness :
    (Car.unlockCar [117, 110, 108, 111, 99, 107] [53] (fun _ => 0)
        (List.replicate 256 0) [] [⟨UNLOCK_MAGIC, 7, [117, 110, 108, 111, 99, 107, 115]⟩]).link
      = [Car.sendAckFailure] :=
  (C1_unlock_ack [117, 110, 108, 111, 99, 107] [53] (fun _ => 0) (List.replicate 256 0) []
    [117, 110, 108, 111, 99, 107, 115] [] (List.length_replicate _ _) (by decide)).1

/-! ## C2: the fob's unlock request against the car's unlock handler -/

/-- C2 as stated fails: a paired fob that stores the 8-byte password
"PASSW0RD" sends an UNLOCK message whose payload is not the stored password,
and a car with the same password answers ACK(failure). -/
theorem C2_eight_byte_password_rejected :
    Fob.paired ([0, 67, 65, 82, 48, 48, 48, 49, 0, 80, 65, 83, 83, 87, 48, 82, 68,
        49, 50, 51, 52, 53, 54, 0, 0, 67, 65, 82, 48, 48, 48, 49, 0, 0, 0, 0, 0]) = FLASH_PAIRED ∧
    Fob.password ([0, 67, 65, 82, 48, 48, 48, 49, 0, 80, 65, 83, 83, 87, 48, 82, 68,
        49, 50, 51, 52, 53, 54, 0, 0, 67, 65, 82, 48, 48, 48, 49, 0, 0, 0, 0, 0])
      = [80, 65, 83, 83, 87, 48, 82, 68] ∧
    (Fob.unlockCar ([0, 67, 65, 82, 48, 48, 48, 49, 0, 80, 65, 83, 83, 87, 48, 82, 68,
        49, 50, 51, 52, 53, 54, 0, 0, 67, 65, 82, 48, 48, 48, 49, 0, 0, 0, 0, 0]) [] []).link
      = [⟨UNLOCK_MAGIC, 6, [80, 65, 83, 83, 87, 48]⟩] ∧
    (Car.unlockCar [80, 65, 83, 83, 87, 48, 82, 68] [67, 65, 82, 48, 48, 48, 49] (fun _ => 0)
      (List.replicate 256 0) (List.replicate 256 0)
      (Fob.unlockCar ([0, 67, 65, 82, 48, 48, 48, 49, 0, 80, 65, 83, 83, 87, 48, 82, 68,
        49, 50, 51, 52, 53, 54, 0, 0, 67, 65, 82, 48, 48, 48, 49, 0, 0, 0, 0, 0]) [] []).link).link
      = [Car.sendAckFailure] := by
  decide

/-- C2, amended: for every password `P` of at most 6 bytes, if a paired fob
stores `P` (NUL-terminated) in its unlock_password field and the car's
compiled-in password is `P`, the fob's unlock request sends one UNLOCK message
whose payload is the first 6 bytes of the stored unlock_password field, and
the car's unlock handler answers it with ACK(success). -/
theorem C2_unlock_end_to_end (P s CAR_ID : List Nat) (eeprom : Nat → Nat)
    (stack stack2 host_in : List Nat) (link_in rest : List MESSAGE_PACKET)
    (hs : s.length = 37) (hpaired : Fob.paired s = FLASH_PAIRED)
    (hP : P.length ≤ 6) (hstore : (P ++ [0]).take 8 <+: Fob.password s)
    (hstack : stack.length = 256) :
    (Fob.unlockCar s host_in link_in).link
      = [⟨UNLOCK_MAGIC, 6, (Fob.password s).take 6⟩] ∧
    (Car.unlockCar P CAR_ID eeprom stack stack2
      ((Fob.unlockCar s host_in link_in).link ++ rest)).link = [Car.sendAckSuccess] := by
  have hsend : (Fob.unlockCar s host_in link_in).link
      = [⟨UNLOCK_MAGIC, 6, (Fob.password s).take 6⟩] := by
    simp [Fob.unlockCar, hpaired, send_board_message, Fob.password, List.take_take]
  refine ⟨hsend, ?_⟩
  rw [hsend]
  have hpl : (Fob.password s).length = 8 := by simp [Fob.password, hs]
  have hb : 6 ≤ ((Fob.password s).take 6).length := by simp [hpl]
  have h := Car.unlockCar_link_eq P CAR_ID eeprom stack stack2 6 ((Fob.password s).take 6) rest
    hstack (by omega) hb
  have htake : (P ++ [0]).take 8 = P ++ [0] := List.take_of_length_le (by simp; omega)
  rw [htake] at hstore
  obtain ⟨v, hv⟩ := hstore
  have hpay : ((Fob.password s).take 6).take 6 = (P ++ 0 :: v).take 6 := by
    rw [List.take_take, ← hv]
    simp
  rw [hpay, takeWhile_take_terminated P v 6 hP, if_pos rfl] at h
  exact h

/-- C2, the amended claim at a concrete input: the fob stores "unlock". -/
theorem C2_unlock_end_to_end_witness :
    (Car.unlockCar [117, 110, 108, 111, 99, 107] [53] (fun _ => 0) (List.replicate 256 0) []
      ((Fob.unlockCar ([0, 53, 0, 0, 0, 0, 0, 0, 0, 117, 110, 108, 111, 99, 107, 0, 0,
        49, 50, 51, 52, 53, 54, 0, 0, 53, 0, 0, 0, 0, 0, 0, 0, 0, 0, 0, 0]) [] []).link ++ [])).link
      = [Car.sendAckSuccess] :=
  (C2_unlock_end_to_end [117, 110, 108, 111, 99, 107]
    [0, 53, 0, 0, 0, 0, 0, 0, 0, 117, 110, 108, 111, 99, 107, 0, 0,
      49, 50, 51, 52, 53, 54, 0, 0, 53, 0, 0, 0, 0, 0, 0, 0, 0, 0, 0, 0]
    [53] (fun _ => 0) (List.replicate 256 0) [] [] [] [] (by decide) (by decide) (by decide)
    (by decide) (List.length_replicate _ _)).2

/-! ## C3: pairing as responder -/

theorem strlen_lt (a : List Nat) : ∀ k, strlen a = some k → k < a.length := by
  induction a with
  | nil => intro k h; simp [strlen] at h
  | cons x a ih =>
    intro k h
    by_cases hx : x = 0
    · simp [strlen, hx] at h
      subst h
      simp
    · simp only [strlen, hx, if_false, Option.map_eq_some'] at h
      obtain ⟨j, hj, rfl⟩ := h
      have := ih j hj
      simp
      omega

theorem strlen_append (a b : List Nat) : ∀ k, strlen a = some k → strlen (a ++ b) = some k := by
  induction a with
  | nil => intro k h; simp [strlen] at h
  | cons x a ih =>
    intro k h
    by_cases hx : x = 0
    · simp [strlen, hx] at h
      simp [strlen, hx, h]
    · simp only [strlen, hx, if_false, Option.map_eq_some'] at h
      obtain ⟨j, hj, rfl⟩ := h
      simp [strlen, hx, ih j hj]

theorem getD_eq_headD_drop (l : List Nat) (i d : Nat) : l.getD i d = (l.drop i).headD d := by
  induction l generalizing i with
  | nil => simp
  | cons x l ih =>
    cases i with
    | zero => simp
    | succ i => simp [ih i]

theorem store_at (a b d : List Nat) (n : Nat) (hn : n = a.length) (h : d.length ≤ b.length) :
    store (a ++ b) n d = some (a ++ (d ++ b.drop d.length)) := by
  subst hn
  have h1 : a.length + d.length ≤ (a ++ b).length := by simp; omega
  simp only [store, h1, if_true, List.take_left', List.append_assoc]
  rw [List.drop_append]

/-- The record after `pairFob` on an unpaired fob that receives a PAIR payload
of 24 bytes whose `car_id` has its first NUL at index `k`. -/
theorem Fob.pairFob_responder (s payload host_in stack : List Nat)
    (link_in rest : List MESSAGE_PACKET) (k : Nat)
    (hs : s.length = 37) (hunpaired : Fob.paired s ≠ FLASH_PAIRED)
    (hrecv : receive_board_message_by_type link_in PAIR_MAGIC
      = some (⟨PAIR_MAGIC, 24, payload⟩, rest))
    (hp : payload.length = 24) (hk : strlen (payload.take 8) = some k) :
    Fob.pairFob s host_in link_in stack
      = some ⟨FLASH_PAIRED :: (payload ++ (payload.take (k + 1) ++ (s.drop 25).drop (k + 1))),
          [], [Fob.str_Paired],
          [FLASH_PAIRED :: (payload ++ (payload.take (k + 1) ++ (s.drop 25).drop (k + 1)))],
          host_in, rest⟩ := by
  have hk8 : k < 8 := by
    have := strlen_lt _ _ hk
    simp [hp] at this
    omega
  obtain ⟨x, s1, rfl⟩ : ∃ x s1, s = x :: s1 := by
    cases s with
    | nil => simp at hs
    | cons x s1 => exact ⟨x, s1, rfl⟩
  have hs1 : s1.length = 36 := by simpa using hs
  have hstore : store (x :: s1) 1 (List.take 24 payload)
      = some (x :: (payload ++ s1.drop 24)) := by
    have := store_at [x] s1 payload 1 rfl (by omega)
    rw [List.take_of_length_le (by omega)]
    simpa [hp] using this
  have hsplit : payload ++ s1.drop 24 = payload.take 8 ++ (payload.drop 8 ++ s1.drop 24) := by
    rw [← List.append_assoc, List.take_append_drop]
  have hlen : strlen (payload ++ s1.drop 24) = some k := by
    rw [hsplit]
    exact strlen_append _ _ _ hk
  have htk : (payload ++ s1.drop 24).take (k + 1) = payload.take (k + 1) := by
    rw [List.take_append_of_le_length (by omega)]
  have h2 : (payload.take (k + 1)).length = k + 1 := by simp [hp]; omega
  have hstore2 : store (FLASH_PAIRED :: (payload ++ s1.drop 24)) 25 (payload.take (k + 1))
      = some (FLASH_PAIRED :: (payload ++ (payload.take (k + 1) ++ (s1.drop 24).drop (k + 1)))) := by
    have := store_at (FLASH_PAIRED :: payload) (s1.drop 24) (payload.take (k + 1)) 25
      (by simp [hp]) (by simp [hs1, hp]; omega)
    rw [h2] at this
    simpa using this
  have hcond : 1 + k < 25 ∨ 25 + k < 1 := Or.inl (by omega)
  simp only [Fob.pairFob, if_neg hunpaired, hrecv, hstore, List.set_cons_zero, strcpy,
    List.drop_succ_cons, List.drop_zero, hlen, hcond, if_true, htk, hstore2]

/-- Pairing as responder with a NUL in the payload's `car_id` leaves
`num_active` and `features`, the bytes from offset 33 on, as they were. -/
theorem Fob.responder_tail (s payload : List Nat) (k : Nat)
    (hp : payload.length = 24) (hk8 : k < 8) :
    List.drop 33
      (FLASH_PAIRED :: (payload ++ (payload.take (k + 1) ++ (s.drop 25).drop (k + 1))))
      = s.drop 33 := by
  have h2 : (payload.take (k + 1)).length = k + 1 := by simp [hp]; omega
  have e : 33 = (payload.length + 1) + 8 := by omega
  have e2 : 8 = (payload.take (k + 1)).length + (7 - k) := by omega
  rw [e, ← List.drop_drop, List.drop_succ_cons, List.drop_left, e2, ← List.drop_drop,
    List.drop_left, List.drop_drop, List.drop_drop]
  congr 1
  omega

/-- C3 as stated fails.  A fob that is not paired, with a zeroed feature
record, receives a PAIR payload whose car_id is "CAR", NUL, "ABCD": afterwards
features.car_id is "CAR" followed by NUL bytes and not the payload's car_id.
The same fob receives a PAIR payload whose car_id has no NUL byte and whose
password starts with the bytes 200 and 0: afterwards active_count is 200 and
not 0. -/
theorem C3_car_id_copied_as_string :
    (Fob.pairFob (255 :: List.replicate 36 0) [] [⟨PAIR_MAGIC, 24,
        [67, 65, 82, 0, 65, 66, 67, 68, 117, 110, 108, 111, 99, 107, 0, 0,
          49, 50, 51, 52, 53, 54, 0, 0]⟩] []).map
      (fun out => Fob.feature_car_id out.fob_state_ram) = some [67, 65, 82, 0, 0, 0, 0, 0] ∧
    [67, 65, 82, 0, 0, 0, 0, 0] ≠ List.take 8 [67, 65, 82, 0, 65, 66, 67, 68, 117, 110, 108,
      111, 99, 107, 0, 0, 49, 50, 51, 52, 53, 54, 0, 0] ∧
    Fob.num_active (255 :: List.replicate 36 0) = 0 ∧
    (Fob.pairFob (255 :: List.replicate 36 0) [] [⟨PAIR_MAGIC, 24,
        [67, 65, 82, 48, 48, 48, 48, 49, 200, 0, 0, 0, 0, 0, 0, 0,
          49, 50, 51, 52, 53, 54, 0, 0]⟩] []).map
      (fun out => Fob.num_active out.fob_state_ram) = some 200 := by
  decide

/-- C3, amended: for every fob record that is not paired and every received
PAIR message whose 24-byte payload is car_id ‖ unlock_password ‖ pairing_pin
with the first NUL byte of car_id at index `k`, `pairFob` returns and
afterwards paired = PAIRED, the PairingInfo is the payload verbatim, bytes
`0..k` of features.car_id are those of the payload's car_id and bytes
`k+1..7` are unchanged (so features.car_id is the payload's car_id when
`k = 7`), active_count and feature_ids are unchanged, and the record handed to
`saveFobState` is this record. -/
theorem C3_pair_responder (s payload host_in stack : List Nat)
    (link_in rest : List MESSAGE_PACKET) (k : Nat)
    (hs : s.length = 37) (hunpaired : Fob.paired s ≠ FLASH_PAIRED)
    (hrecv : receive_board_message_by_type link_in PAIR_MAGIC
      = some (⟨PAIR_MAGIC, 24, payload⟩, rest))
    (hp : payload.length = 24) (hk : strlen (payload.take 8) = some k) :
    ∃ out, Fob.pairFob s host_in link_in stack = some out ∧
      Fob.paired out.fob_state_ram = FLASH_PAIRED ∧
      Fob.pair_info out.fob_state_ram = payload ∧
      Fob.feature_car_id out.fob_state_ram
        = payload.take (k + 1) ++ (Fob.feature_car_id s).drop (k + 1) ∧
      (k = 7 → Fob.feature_car_id out.fob_state_ram = payload.take 8) ∧
      Fob.num_active out.fob_state_ram = Fob.num_active s ∧
      Fob.features out.fob_state_ram = Fob.features s ∧
      out.saved = [out.fob_state_ram] := by
  have hk8 : k < 8 := by
    have := strlen_lt _ _ hk
    simp [hp] at this
    omega
  have h2 : (payload.take (k + 1)).length = k + 1 := by simp [hp]; omega
  have hT : (s.drop 25).length = 12 := by simp [hs]
  have hcar : Fob.feature_car_id
      (FLASH_PAIRED :: (payload ++ (payload.take (k + 1) ++ (s.drop 25).drop (k + 1))))
      = payload.take (k + 1) ++ (Fob.feature_car_id s).drop (k + 1) := by
    have e : 25 = payload.length + 1 := by omega
    simp only [Fob.feature_car_id]
    rw [e, List.drop_succ_cons, List.drop_left, ← e, List.take_append_eq_append_take,
      List.take_of_length_le (by omega), h2, List.drop_take]
  have hrest := Fob.responder_tail s payload k hp hk8
  refine ⟨_, Fob.pairFob_responder s payload host_in stack link_in rest k hs hunpaired hrecv hp hk,
    ?_, ?_, hcar, ?_, ?_, ?_, rfl⟩
  · simp [Fob.paired]
  · simp only [Fob.pair_info, List.drop_succ_cons, List.drop_zero]
    rw [← hp, List.take_left]
  · intro h7
    subst h7
    rw [hcar]
    have : (Fob.feature_car_id s).length = 8 := by simp [Fob.feature_car_id, hs]
    simp [List.drop_of_length_le, this]
  · simp only [Fob.num_active, getD_eq_headD_drop, hrest]
  · have e : 34 = 33 + 1 := rfl
    simp only [Fob.features]
    rw [e, ← List.drop_drop, ← List.drop_drop (l := s), hrest]

/-- C3, the amended claim at the scenario of the spec: car_id "CAR0001",
password "PASSW0RD", pin "123456". -/
theorem C3_pair_responder_witness :
    ∃ out, Fob.pairFob (255 :: List.replicate 36 0) [] [⟨PAIR_MAGIC, 24,
        [67, 65, 82, 48, 48, 48, 49, 0, 80, 65, 83, 83, 87, 48, 82, 68,
          49, 50, 51, 52, 53, 54, 0, 0]⟩] [] = some out ∧
      Fob.paired out.fob_state_ram = FLASH_PAIRED ∧
      Fob.feature_car_id out.fob_state_ram = [67, 65, 82, 48, 48, 48, 49, 0] ∧
      Fob.num_active out.fob_state_ram = 0 := by
  obtain ⟨out, h1, h2, _, _, h5, h6, _, _⟩ :=
    C3_pair_responder (255 :: List.replicate 36 0)
      [67, 65, 82, 48, 48, 48, 49, 0, 80, 65, 83, 83, 87, 48, 82, 68, 49, 50, 51, 52, 53, 54, 0, 0]
      [] [] [⟨PAIR_MAGIC, 24, [67, 65, 82, 48, 48, 48, 49, 0, 80, 65, 83, 83, 87, 48, 82, 68,
        49, 50, 51, 52, 53, 54, 0, 0]⟩] [] 7 (by decide) (by decide) (by decide) (by decide)
      (by decide)
  exact ⟨out, h1, h2, h5 rfl, h6⟩

/-! ## Lemmas on lines, string comparison and the feature search -/

/-- `uart_readline` on a line that fits the buffer: the line is stored from
`read` on, followed by a NUL. -/
theorem uart_readline_line (line : List Nat) :
    ∀ (buf : List Nat) (read t : Nat) (rest : List Nat),
      (∀ b ∈ line, b ≠ 10 ∧ b ≠ 13) → Fob.lineEnd t → read + line.length < buf.length →
      uart_readline (line ++ t :: rest) buf read
        = some (buf.take read ++ line ++ 0 :: buf.drop (read + line.length + 1),
            read + line.length, rest) := by
  induction line with
  | nil =>
    intro buf read t rest _ ht hlen
    have hlt : read < buf.length := by simpa using hlen
    have hc : ¬ (t ≠ 13 ∧ t ≠ 10 ∧ t ≠ 0xD) := by
      rcases ht with h | h <;> simp [h]
    simp only [List.nil_append, uart_readline, if_neg hc, if_pos hlt, List.length_nil,
      Nat.add_zero, List.append_nil]
    rw [List.set_eq_take_append_cons_drop, if_pos hlt]
  | cons c line ih =>
    intro buf read t rest hline ht hlen
    have hc : c ≠ 13 ∧ c ≠ 10 ∧ c ≠ 0xD := by
      have := hline c (by simp)
      exact ⟨this.2, this.1, this.2⟩
    have hline1 : ∀ b ∈ line, b ≠ 10 ∧ b ≠ 13 := fun b hb => hline b (by simp [hb])
    have hlt : read < buf.length := by simp at hlen; omega
    have hlen1 : read + 1 + line.length < (buf.set read c).length := by
      simp at hlen ⊢; omega
    simp only [List.cons_append, uart_readline, if_pos hc, if_pos hlt, List.append_eq]
    rw [ih (buf.set read c) (read + 1) t rest hline1 ht hlen1]
    have h1 : (buf.set read c).take (read + 1) = buf.take read ++ [c] := by
      rw [List.set_eq_take_append_cons_drop, if_pos hlt]
      have : (List.take read buf).length = read := by simp; omega
      rw [List.take_append_eq_append_take, this, List.take_of_length_le (by omega)]
      simp
    have h2 : (buf.set read c).drop (read + 1 + line.length + 1)
        = buf.drop (read + (c :: line).length + 1) := by
      rw [List.drop_set_of_lt _ _ (by omega)]
      simp only [List.length_cons]
      congr 1
      omega
    rw [h1, h2]
    have e : read + 1 + line.length = read + (line.length + 1) := by omega
    simp only [List.length_cons, List.append_assoc, List.singleton_append, e, List.cons_append,
      List.nil_append]

/-- `uart_readline` on a line that does not fit the buffer stores a byte past
its end. -/
theorem uart_readline_overrun (line : List Nat) :
    ∀ (buf : List Nat) (read t : Nat) (rest : List Nat),
      (∀ b ∈ line, b ≠ 10 ∧ b ≠ 13) → Fob.lineEnd t → buf.length ≤ read + line.length →
      uart_readline (line ++ t :: rest) buf read = none := by
  induction line with
  | nil =>
    intro buf read t rest _ ht hlen
    have hlt : ¬ read < buf.length := by simp at hlen; omega
    have hc : ¬ (t ≠ 13 ∧ t ≠ 10 ∧ t ≠ 0xD) := by
      rcases ht with h | h <;> simp [h]
    simp only [List.nil_append, uart_readline, if_neg hc, if_neg hlt]
  | cons c line ih =>
    intro buf read t rest hline ht hlen
    have hc : c ≠ 13 ∧ c ≠ 10 ∧ c ≠ 0xD := by
      have := hline c (by simp)
      exact ⟨this.2, this.1, this.2⟩
    have hline1 : ∀ b ∈ line, b ≠ 10 ∧ b ≠ 13 := fun b hb => hline b (by simp [hb])
    simp only [List.cons_append, uart_readline, if_pos hc, List.append_eq]
    by_cases hlt : read < buf.length
    · rw [if_pos hlt]
      exact ih (buf.set read c) (read + 1) t rest hline1 ht (by simp at hlen ⊢; omega)
    · rw [if_neg hlt]

/-- `strcmp` against a string with a NUL at index `line.length` is defined when
the other object is longer than that. -/
theorem strcmp_defined (line : List Nat) :
    ∀ (a w : List Nat), line.length < a.length → ∃ c, strcmp a (line ++ 0 :: w) = some c := by
  induction line with
  | nil =>
    intro a w h
    cases a with
    | nil => simp at h
    | cons x a =>
      by_cases hx : x = 0
      · exact ⟨0, by simp [strcmp, hx]⟩
      · exact ⟨(x : Int) - ((0 : Nat) : Int), by simp [strcmp, hx]⟩
  | cons y line ih =>
    intro a w h
    cases a with
    | nil => simp at h
    | cons x a =>
      have h1 : line.length < a.length := by simpa using h
      by_cases hxy : x = y
      · by_cases hx : x = 0
        · exact ⟨0, by simp [strcmp, hxy, hx ▸ hxy.symm]⟩
        · obtain ⟨c, hc⟩ := ih a w h1
          exact ⟨c, by simp only [List.cons_append, strcmp, if_pos hxy, if_neg hx, List.append_eq, hc]⟩
      · exact ⟨(x : Int) - (y : Int), by simp [strcmp, hxy]⟩

/-- Bytes after the NUL of the second string do not matter to `strcmp`. -/
theorem strcmp_tail (line : List Nat) :
    ∀ (a w w2 : List Nat), strcmp a (line ++ 0 :: w) = strcmp a (line ++ 0 :: w2) := by
  induction line with
  | nil =>
    intro a w w2
    cases a with
    | nil => simp [strcmp]
    | cons x a =>
      by_cases hx : x = 0
      · simp [strcmp, hx]
      · simp [strcmp, hx]
  | cons y line ih =>
    intro a w w2
    cases a with
    | nil => simp [strcmp]
    | cons x a =>
      by_cases hxy : x = y
      · by_cases hx : x = 0
        · simp [strcmp, hxy, hx ▸ hxy.symm]
        · simp only [List.cons_append, strcmp, if_pos hxy, if_neg hx, List.append_eq, ih a w w2]
      · simp [strcmp, hxy]

/-- `strcmp` reads the first object only up to the NUL of the second. -/
theorem strcmp_of_take_eq (line : List Nat) :
    ∀ (a a2 w : List Nat), a.take (line.length + 1) = a2.take (line.length + 1) →
      strcmp a (line ++ 0 :: w) = strcmp a2 (line ++ 0 :: w) := by
  induction line with
  | nil =>
    intro a a2 w h
    cases a with
    | nil =>
      cases a2 with
      | nil => rfl
      | cons x2 a2 => simp at h
    | cons x a =>
      cases a2 with
      | nil => simp at h
      | cons x2 a2 =>
        have hx : x = x2 := by simpa using h
        subst hx
        by_cases hx : x = 0
        · simp [strcmp, hx]
        · simp [strcmp, hx]
  | cons y line ih =>
    intro a a2 w h
    cases a with
    | nil =>
      cases a2 with
      | nil => rfl
      | cons x2 a2 => simp at h
    | cons x a =>
      cases a2 with
      | nil => simp at h
      | cons x2 a2 =>
        simp only [List.length_cons, List.take_succ_cons, List.cons.injEq] at h
        obtain ⟨hx, ht⟩ := h
        subst hx
        by_cases hxy : x = y
        · by_cases hx : x = 0
          · simp [strcmp, hxy, hx ▸ hxy.symm]
          · simp only [List.cons_append, strcmp, if_pos hxy, if_neg hx, List.append_eq, ih a a2 w ht]
        · simp [strcmp, hxy]

/-- A difference at index `i`, with no NUL before it in the first string,
makes `strcmp` non-zero. -/
theorem strcmp_ne_zero_of_diff (i : Nat) :
    ∀ (a b : List Nat) (x y : Nat), a[i]? = some x → b[i]? = some y → x ≠ y →
      (∀ j, j < i → a[j]? ≠ some 0) → ∃ c, strcmp a b = some c ∧ c ≠ 0 := by
  induction i with
  | zero =>
    intro a b x y ha hb hxy _
    cases a with
    | nil => simp at ha
    | cons a0 a =>
      cases b with
      | nil => simp at hb
      | cons b0 b =>
        simp at ha hb
        subst ha hb
        exact ⟨(a0 : Int) - (b0 : Int), by simp [strcmp, hxy], by omega⟩
  | succ i ih =>
    intro a b x y ha hb hxy hnul
    cases a with
    | nil => simp at ha
    | cons a0 a =>
      cases b with
      | nil => simp at hb
      | cons b0 b =>
        by_cases h0 : a0 = b0
        · have ha0 : a0 ≠ 0 := by
            have := hnul 0 (by omega)
            simpa using this
          have hnul1 : ∀ j, j < i → a[j]? ≠ some 0 := by
            intro j hj
            have := hnul (j + 1) (by omega)
            simpa using this
          obtain ⟨c, hc, hc0⟩ := ih a b x y (by simpa using ha) (by simpa using hb) hxy hnul1
          exact ⟨c, by simp only [strcmp, if_pos h0, if_neg ha0, hc], hc0⟩
        · exact ⟨(a0 : Int) - (b0 : Int), by simp [strcmp, h0], by omega⟩

theorem zero_mem_split (l : List Nat) (h : 0 ∈ l) :
    ∃ post, l = l.takeWhile (· ≠ 0) ++ 0 :: post := by
  induction l with
  | nil => simp at h
  | cons a l ih =>
    by_cases ha : a = 0
    · subst ha
      exact ⟨l, by simp⟩
    · have hl : 0 ∈ l := by
        rcases List.mem_cons.mp h with h1 | h1
        · exact absurd h1.symm ha
        · exact h1
      obtain ⟨post, hpost⟩ := ih hl
      refine ⟨post, ?_⟩
      rw [List.takeWhile_cons]
      simp only [ha, ne_eq, not_false_eq_true, decide_True, if_true, List.cons_append]
      rw [← hpost]

theorem strcmp_symm (a : List Nat) :
    ∀ b : List Nat, strcmp b a = (strcmp a b).map (fun c => -c) := by
  induction a with
  | nil => intro b; cases b <;> simp [strcmp]
  | cons x a ih =>
    intro b
    cases b with
    | nil => simp [strcmp]
    | cons y b =>
      by_cases hxy : x = y
      · subst hxy
        by_cases hx : x = 0
        · simp [strcmp, hx]
        · simp [strcmp, hx, ih b]
      · have hyx : ¬ y = x := fun h => hxy h.symm
        simp [strcmp, hxy, hyx]

theorem Fob.searchFeature_defined (m : List Nat) (f : Nat) (k : Nat) :
    ∀ i, 34 + i + k ≤ m.length → ∃ b, Fob.searchFeature m f i k = some b := by
  induction k with
  | zero => intro i _; exact ⟨false, rfl⟩
  | succ k ih =>
    intro i h
    have hi : 34 + i < m.length := by omega
    obtain ⟨b, hb⟩ := ih (i + 1) (by omega)
    by_cases hx : m[34 + i] = f
    · exact ⟨true, by simp [Fob.searchFeature, List.getElem?_eq_getElem hi, hx]⟩
    · exact ⟨b, by simp [Fob.searchFeature, List.getElem?_eq_getElem hi, hx, hb]⟩

/-- The search ends with `false` exactly when every visited slot is inside
the record and differs from the feature. -/
theorem Fob.searchFeature_false_iff (m : List Nat) (f : Nat) (k : Nat) :
    ∀ i, Fob.searchFeature m f i k = some false ↔
      ∀ j, j < k → ∃ x, m[34 + i + j]? = some x ∧ x ≠ f := by
  induction k with
  | zero => intro i; simp [Fob.searchFeature]
  | succ k ih =>
    intro i
    constructor
    · intro h j hj
      unfold Fob.searchFeature at h
      cases hm : m[34 + i]? with
      | none => simp [hm] at h
      | some x =>
        simp only [hm] at h
        by_cases hx : x = f
        · simp [hx] at h
        · simp only [if_neg hx] at h
          cases j with
          | zero => exact ⟨x, by simpa using hm, hx⟩
          | succ j =>
            obtain ⟨y, hy, hyf⟩ := (ih (i + 1)).mp h j (by omega)
            refine ⟨y, ?_, hyf⟩
            rw [← hy]
            congr 1
            omega
    · intro h
      obtain ⟨x, hx, hxf⟩ := h 0 (by omega)
      have hm : m[34 + i]? = some x := by simpa using hx
      unfold Fob.searchFeature
      simp only [hm, if_neg hxf]
      apply (ih (i + 1)).mpr
      intro j hj
      obtain ⟨y, hy, hyf⟩ := h (j + 1) (by omega)
      refine ⟨y, ?_, hyf⟩
      rw [← hy]
      congr 1
      omega

/-- The search ends with `true` when the feature is in slot `i + d`, with
`d` below the number of rounds and the slots up to it inside the record. -/
theorem Fob.searchFeature_true (m : List Nat) (f : Nat) (d : Nat) :
    ∀ i k, d < k → m[34 + i + d]? = some f → 34 + i + d < m.length →
      Fob.searchFeature m f i k = some true := by
  induction d with
  | zero =>
    intro i k hk hm _
    cases k with
    | zero => omega
    | succ k =>
      have hm2 : m[34 + i]? = some f := by simpa using hm
      simp [Fob.searchFeature, hm2]
  | succ d ih =>
    intro i k hk hm hlen
    cases k with
    | zero => omega
    | succ k =>
      have hi : 34 + i < m.length := by omega
      unfold Fob.searchFeature
      rw [List.getElem?_eq_getElem hi]
      by_cases hx : m[34 + i] = f
      · simp [hx]
      · simp only [if_neg hx]
        apply ih (i + 1) k (by omega)
        · rw [← hm]
          congr 1
          omega
        · omega

/-! ## The fob operations on a paired fob -/

/-- The two ways `enableFeature` ends after its read: the record is left as
it was and nothing is saved, or the feature is appended and the record saved. -/
theorem Fob.enableFeatureAfterRead_some (s buf rest : List Nat) (link : List MESSAGE_PACKET)
    (out : Fob.Out) (h : Fob.enableFeatureAfterRead s buf rest link = some out) :
    out = ⟨s, [], [], [], rest, link⟩ ∨
    (strcmp (s.drop 1) buf = some 0 ∧ Fob.num_active s ≠ NUM_FEATURES ∧
      Fob.searchFeature s (buf.getD 8 0) 0 (Fob.num_active s) = some false ∧
      34 + Fob.num_active s < s.length ∧
      out = ⟨(s.set (34 + Fob.num_active s) (buf.getD 8 0)).set 33 ((Fob.num_active s + 1) % 256),
        [], [Fob.str_Enabled],
        [(s.set (34 + Fob.num_active s) (buf.getD 8 0)).set 33 ((Fob.num_active s + 1) % 256)],
        rest, link⟩) := by
  unfold Fob.enableFeatureAfterRead at h
  cases hc : strcmp (s.drop 1) buf with
  | none => rw [hc] at h; simp at h
  | some c =>
    rw [hc] at h
    dsimp only at h
    by_cases hc0 : c ≠ 0
    · rw [if_pos hc0] at h
      exact Or.inl (Option.some.inj h).symm
    · rw [if_neg hc0] at h
      have hc00 : c = 0 := not_not.mp hc0
      by_cases hfull : Fob.num_active s = NUM_FEATURES
      · rw [if_pos hfull] at h
        exact Or.inl (Option.some.inj h).symm
      · rw [if_neg hfull] at h
        cases hsr : Fob.searchFeature s (buf.getD 8 0) 0 (Fob.num_active s) with
        | none => rw [hsr] at h; simp at h
        | some b =>
          rw [hsr] at h
          cases b with
          | true =>
            dsimp only at h
            exact Or.inl (Option.some.inj h).symm
          | false =>
            dsimp only at h
            by_cases hlen : 34 + Fob.num_active s < s.length
            · rw [if_pos hlen] at h
              exact Or.inr ⟨hc00 ▸ rfl, hfull, rfl, hlen, (Option.some.inj h).symm⟩
            · rw [if_neg hlen] at h
              simp at h

/-- On a paired fob `pairFob` leaves the record as it was and saves nothing. -/
theorem Fob.pairFob_paired_some (s host_in stack : List Nat) (link_in : List MESSAGE_PACKET)
    (out : Fob.Out) (hp : Fob.paired s = FLASH_PAIRED)
    (h : Fob.pairFob s host_in link_in stack = some out) :
    out.fob_state_ram = s ∧ out.saved = [] := by
  unfold Fob.pairFob at h
  rw [if_pos hp] at h
  cases hr : uart_readline host_in stack 0 with
  | none => simp [hr] at h
  | some r =>
    obtain ⟨buf, n, rest⟩ := r
    simp only [hr] at h
    by_cases hn : n = 6
    · rw [if_pos hn] at h
      cases hc : strcmp buf (s.drop 17) with
      | none => simp [hc] at h
      | some c =>
        simp only [hc] at h
        by_cases hc0 : c = 0
        · rw [if_pos hc0] at h
          have := (Option.some.inj h).symm
          subst this
          exact ⟨rfl, rfl⟩
        · rw [if_neg hc0] at h
          have := (Option.some.inj h).symm
          subst this
          exact ⟨rfl, rfl⟩
    · rw [if_neg hn] at h
      have := (Option.some.inj h).symm
      subst this
      exact ⟨rfl, rfl⟩

theorem take_set_of_le (l : List Nat) (n m a : Nat) (h : m ≤ n) :
    (l.set n a).take m = l.take m := by
  apply List.ext_getElem?
  intro i
  rw [List.getElem?_take, List.getElem?_take]
  split
  · rw [List.getElem?_set_ne (by omega)]
  · rfl

/-- The three fields of the PairingInfo are parts of `pair_info`. -/
theorem Fob.fields_of_pair_info (a b : List Nat) (h : Fob.pair_info a = Fob.pair_info b) :
    Fob.car_id a = Fob.car_id b ∧ Fob.password a = Fob.password b ∧ Fob.pin a = Fob.pin b := by
  have hc : ∀ x : List Nat, Fob.car_id x = (Fob.pair_info x).take 8 := by
    intro x
    simp [Fob.car_id, Fob.pair_info, List.take_take]
  have hpw : ∀ x : List Nat, Fob.password x = ((Fob.pair_info x).drop 8).take 8 := by
    intro x
    simp [Fob.password, Fob.pair_info, List.drop_take, List.take_take]
  have hpin : ∀ x : List Nat, Fob.pin x = ((Fob.pair_info x).drop 16).take 8 := by
    intro x
    simp [Fob.pin, Fob.pair_info, List.drop_take, List.take_take]
  rw [hc a, hc b, hpw a, hpw b, hpin a, hpin b, h]
  exact ⟨rfl, rfl, rfl⟩

theorem Fob.paired_set (s : List Nat) (i v : Nat) (hi : 0 < i) :
    Fob.paired (s.set i v) = Fob.paired s := by
  have : i ≠ 0 := by omega
  simp [Fob.paired, List.getElem?_set_ne this]

theorem Fob.pair_info_set (s : List Nat) (i v : Nat) (hi : 25 ≤ i) :
    Fob.pair_info (s.set i v) = Fob.pair_info s := by
  simp only [Fob.pair_info, List.take_drop]
  rw [take_set_of_le s i (1 + 24) v (by omega)]

theorem Fob.feature_car_id_set (s : List Nat) (i v : Nat) (hi : 33 ≤ i) :
    Fob.feature_car_id (s.set i v) = Fob.feature_car_id s := by
  simp only [Fob.feature_car_id, List.take_drop]
  rw [take_set_of_le s i (25 + 8) v (by omega)]

theorem Fob.enableFeature_returns (s host_in stack : List Nat) (link_in : List MESSAGE_PACKET)
    (hs : s.length = 37) (hfit : Fob.lineFits host_in stack 20)
    (hn : Fob.num_active s ≤ NUM_FEATURES) :
    ∃ out, Fob.enableFeature s host_in link_in stack = some out := by
  obtain ⟨line, t, rest, rfl, hline, ht, hlen, hstack⟩ := hfit
  unfold Fob.enableFeature
  by_cases hp : Fob.paired s = FLASH_PAIRED
  · rw [if_pos hp, uart_readline_line line stack 0 t rest hline ht (by omega)]
    simp only [List.take_zero, List.nil_append, Nat.zero_add]
    obtain ⟨c, hc⟩ := strcmp_defined line (s.drop 1) (stack.drop (line.length + 1))
      (by simp [hs]; omega)
    unfold Fob.enableFeatureAfterRead
    simp only [hc]
    by_cases hc0 : c ≠ 0
    · rw [if_pos hc0]; exact ⟨_, rfl⟩
    · rw [if_neg hc0]
      by_cases hfull : Fob.num_active s = NUM_FEATURES
      · rw [if_pos hfull]; exact ⟨_, rfl⟩
      · rw [if_neg hfull]
        have h3 : NUM_FEATURES = 3 := rfl
        have hlt : Fob.num_active s < 3 := by omega
        obtain ⟨b, hb⟩ := Fob.searchFeature_defined s
          ((line ++ 0 :: stack.drop (line.length + 1)).getD 8 0) (Fob.num_active s) 0
          (by omega)
        simp only [hb]
        cases b with
        | true => exact ⟨_, rfl⟩
        | false =>
          have : 34 + Fob.num_active s < s.length := by omega
          simp only [if_pos this]
          exact ⟨_, rfl⟩
  · rw [if_neg hp]; exact ⟨_, rfl⟩

theorem Fob.pairFob_paired_returns (s host_in stack : List Nat) (link_in : List MESSAGE_PACKET)
    (hs : s.length = 37) (hp : Fob.paired s = FLASH_PAIRED)
    (hfit : Fob.lineFits host_in stack 8) :
    ∃ out, Fob.pairFob s host_in link_in stack = some out := by
  obtain ⟨line, t, rest, rfl, hline, ht, hlen, hstack⟩ := hfit
  unfold Fob.pairFob
  rw [if_pos hp, uart_readline_line line stack 0 t rest hline ht (by omega)]
  simp only [List.take_zero, List.nil_append, Nat.zero_add]
  by_cases h6 : line.length = 6
  · rw [if_pos h6]
    obtain ⟨c, hc⟩ := strcmp_defined line (s.drop 17) (stack.drop (line.length + 1))
      (by simp [hs]; omega)
    rw [strcmp_symm, hc]
    simp only [Option.map_some']
    by_cases hc0 : -c = 0
    · rw [if_pos hc0]; exact ⟨_, rfl⟩
    · rw [if_neg hc0]; exact ⟨_, rfl⟩
  · rw [if_neg h6]; exact ⟨_, rfl⟩

/-! ## C4: pairing is one-shot -/

/-- The record after an operation on a paired fob. -/
theorem Fob.step_paired (s : List Nat) (op : Fob.Op) (out : Fob.Out)
    (hp : Fob.paired s = FLASH_PAIRED) (h : Fob.step s op = some out) :
    Fob.paired out.fob_state_ram = FLASH_PAIRED ∧
    Fob.pair_info out.fob_state_ram = Fob.pair_info s := by
  cases op with
  | pair host_in link_in stack =>
    obtain ⟨h1, _⟩ := Fob.pairFob_paired_some s host_in stack link_in out hp h
    rw [h1]
    exact ⟨hp, rfl⟩
  | enable host_in link_in stack =>
    simp only [Fob.step, Fob.enableFeature, if_pos hp] at h
    cases hr : uart_readline host_in stack 0 with
    | none => simp [hr] at h
    | some r =>
      obtain ⟨buf, n, rest⟩ := r
      simp only [hr] at h
      rcases Fob.enableFeatureAfterRead_some s buf rest link_in out h with h1 | h1
      · subst h1
        exact ⟨hp, rfl⟩
      · obtain ⟨_, _, _, _, h1⟩ := h1
        subst h1
        simp only
        rw [Fob.paired_set _ _ _ (by omega), Fob.paired_set _ _ _ (by omega),
          Fob.pair_info_set _ _ _ (by omega), Fob.pair_info_set _ _ _ (by omega)]
        exact ⟨hp, rfl⟩
  | unlock host_in link_in =>
    simp only [Fob.step, Fob.unlockCar, if_pos hp, Option.some.injEq] at h
    subst h
    exact ⟨hp, rfl⟩
  | start host_in link_in =>
    simp only [Fob.step, Fob.startCar, if_pos hp, Option.some.injEq] at h
    subst h
    exact ⟨hp, rfl⟩

/-- C4 as stated fails for operator lines that do not fit: on a paired fob,
`pairFob` on a PIN line of 8 bytes and `enableFeature` on a line of 20 bytes
store the closing NUL past the local `uart_buffer` and have no result, so
there is no resulting record. -/
theorem C4_overlong_line_has_no_result :
    Fob.paired [0, 67, 65, 82, 48, 48, 48, 49, 0, 117, 110, 108, 111, 99, 107, 0, 0,
        49, 50, 51, 52, 53, 54, 0, 0, 67, 65, 82, 48, 48, 48, 49, 0, 0, 0, 0, 0] = FLASH_PAIRED ∧
    Fob.step [0, 67, 65, 82, 48, 48, 48, 49, 0, 117, 110, 108, 111, 99, 107, 0, 0,
        49, 50, 51, 52, 53, 54, 0, 0, 67, 65, 82, 48, 48, 48, 49, 0, 0, 0, 0, 0]
      (Fob.Op.pair [49, 50, 51, 52, 53, 54, 55, 56, 10]
        [⟨PAIR_MAGIC, 24, List.replicate 24 65⟩] (List.replicate 8 0)) = none ∧
    Fob.step [0, 67, 65, 82, 48, 48, 48, 49, 0, 117, 110, 108, 111, 99, 107, 0, 0,
        49, 50, 51, 52, 53, 54, 0, 0, 67, 65, 82, 48, 48, 48, 49, 0, 0, 0, 0, 0]
      (Fob.Op.enable (List.replicate 20 65 ++ [10]) [] (List.replicate 20 0)) = none := by
  decide

/-- C4, amended: on a paired fob every operation (`pairFob` with any PIN input
and any incoming PAIR message, `enableFeature`, `unlockCar`, `startCar`),
whenever it returns, leaves paired = PAIRED and the PairingInfo (car_id,
unlock_password, pairing_pin) as it was; `unlockCar` and `startCar` always
return, `pairFob` returns whenever the operator line is complete (closed by a
line-end byte 10 or 13) and has fewer than 8 bytes, and `enableFeature`
returns whenever the line is complete and has fewer than 20 bytes and
active_count is at most 3; and a PAIR message after pairing has no effect:
`pairFob`, when it returns, leaves the whole record as it was and saves
nothing. -/
theorem C4_pairing_irreversible (s : List Nat) (op : Fob.Op)
    (hs : s.length = 37) (hp : Fob.paired s = FLASH_PAIRED) :
    (∀ out, Fob.step s op = some out →
      Fob.paired out.fob_state_ram = FLASH_PAIRED ∧
      Fob.pair_info out.fob_state_ram = Fob.pair_info s ∧
      Fob.car_id out.fob_state_ram = Fob.car_id s ∧
      Fob.password out.fob_state_ram = Fob.password s ∧
      Fob.pin out.fob_state_ram = Fob.pin s) ∧
    (Fob.inputFits s op → ∃ out, Fob.step s op = some out) ∧
    (∀ host_in link_in stack out, Fob.pairFob s host_in link_in stack = some out →
      out.fob_state_ram = s ∧ out.saved = []) := by
  refine ⟨?_, ?_, ?_⟩
  · intro out h
    obtain ⟨h1, h2⟩ := Fob.step_paired s op out hp h
    exact ⟨h1, h2, Fob.fields_of_pair_info _ _ h2⟩
  · intro hfit
    cases op with
    | pair host_in link_in stack =>
      exact Fob.pairFob_paired_returns s host_in stack link_in hs hp hfit
    | enable host_in link_in stack =>
      exact Fob.enableFeature_returns s host_in stack link_in hs hfit.1 hfit.2
    | unlock host_in link_in => exact ⟨_, rfl⟩
    | start host_in link_in => exact ⟨_, rfl⟩
  · intro host_in link_in stack out h
    exact Fob.pairFob_paired_some s host_in stack link_in out hp h

/-- C4, the amended claim at a concrete input: a paired fob with the PIN "123456" is asked to
pair, the operator enters "000000", and a PAIR message is waiting on the
board link. -/
theorem C4_pairing_irreversible_witness :
    ∃ out, Fob.step [0, 67, 65, 82, 48, 48, 48, 49, 0, 117, 110, 108, 111, 99, 107, 0, 0,
        49, 50, 51, 52, 53, 54, 0, 0, 67, 65, 82, 48, 48, 48, 49, 0, 0, 0, 0, 0]
        (Fob.Op.pair [48, 48, 48, 48, 48, 48, 10]
          [⟨PAIR_MAGIC, 24, List.replicate 24 65⟩] (List.replicate 8 0)) = some out ∧
      Fob.paired out.fob_state_ram = FLASH_PAIRED ∧
      Fob.pair_info out.fob_state_ram = [67, 65, 82, 48, 48, 48, 49, 0, 117, 110, 108, 111,
        99, 107, 0, 0, 49, 50, 51, 52, 53, 54, 0, 0] := by
  have h := C4_pairing_irreversible
    [0, 67, 65, 82, 48, 48, 48, 49, 0, 117, 110, 108, 111, 99, 107, 0, 0,
      49, 50, 51, 52, 53, 54, 0, 0, 67, 65, 82, 48, 48, 48, 49, 0, 0, 0, 0, 0]
    (Fob.Op.pair [48, 48, 48, 48, 48, 48, 10]
      [⟨PAIR_MAGIC, 24, List.replicate 24 65⟩] (List.replicate 8 0)) (by decide) (by decide)
  obtain ⟨out, hout⟩ := h.2.1
    ⟨[48, 48, 48, 48, 48, 48], 10, [], rfl, by decide, Or.inl rfl, by decide, by decide⟩
  exact ⟨out, hout, (h.1 out hout).1, (h.1 out hout).2.1⟩

/-! ## C5: pairing as initiator -/

/-- `strcmp` of a string with its NUL at index `p.length` against an object
longer than that: defined, and `0` exactly when the bytes before the first NUL
agree. -/
theorem strcmp_left_terminated (p : List Nat) :
    ∀ (t b : List Nat), p.length < b.length →
      ∃ c, strcmp (p ++ 0 :: t) b = some c ∧
        (c = 0 ↔ p.takeWhile (· ≠ 0) = (b.take (p.length + 1)).takeWhile (· ≠ 0)) := by
  induction p with
  | nil =>
    intro t b h
    cases b with
    | nil => simp at h
    | cons y b =>
      by_cases hy : y = 0
      · subst hy
        exact ⟨0, by simp [strcmp], by simp⟩
      · have hy2 : ¬ 0 = y := fun h => hy h.symm
        refine ⟨((0 : Nat) : Int) - (y : Int), by simp [strcmp, hy2], ?_⟩
        simp [List.takeWhile_cons, hy]
  | cons a p ih =>
    intro t b h
    cases b with
    | nil => simp at h
    | cons y b =>
      have h1 : p.length < b.length := by simpa using h
      by_cases hay : a = y
      · subst hay
        by_cases ha : a = 0
        · subst ha
          exact ⟨0, by simp [strcmp], by simp⟩
        · obtain ⟨c, hc, hiff⟩ := ih t b h1
          refine ⟨c, by simp only [List.cons_append, strcmp, if_true, if_neg ha, List.append_eq,
            hc], ?_⟩
          rw [hiff]
          simp [List.takeWhile_cons, ha]
      · refine ⟨(a : Int) - (y : Int), by simp [strcmp, hay], ?_⟩
        constructor
        · intro h0
          omega
        · intro h0
          exfalso
          by_cases ha : a = 0
          · have hy : y ≠ 0 := fun h => hay (ha.trans h.symm)
            simp [List.takeWhile_cons, ha, hy] at h0
          · by_cases hy : y = 0
            · simp [List.takeWhile_cons, ha, hy] at h0
            · simp [List.takeWhile_cons, ha, hy] at h0
              exact hay h0.1

theorem eq_take_iff (x y : List Nat) (n : Nat) (h : x.length < n) :
    x = y.take n ↔ x = y := by
  constructor
  · intro hx
    have h1 : (y.take n).length < n := by rw [← hx]; exact h
    have h2 : y.length < n := by
      rw [List.length_take] at h1
      omega
    rw [hx, List.take_of_length_le (by omega)]
  · intro hx
    subst hx
    rw [List.take_of_length_le (by omega)]

theorem length_takeWhile_le (l : List Nat) : (l.takeWhile (· ≠ 0)).length ≤ l.length :=
  (List.takeWhile_sublist _).length_le

/-- C5 as stated fails.  On a paired fob whose stored pairing_pin is "1"
followed by NUL bytes, the 6-byte line "1", NUL, "2345" differs from the stored
pin and a PAIR message is sent.  On an 8-byte line `uart_readline` stores the
closing NUL past `uart_buffer[8]` and `pairFob` has no result. -/
theorem C5_pin_compared_as_string :
    [49, 0, 50, 51, 52, 53] ≠ List.take 6 (Fob.pin
      [0, 67, 65, 82, 48, 48, 48, 49, 0, 117, 110, 108, 111, 99, 107, 0, 0,
        49, 0, 0, 0, 0, 0, 0, 0, 67, 65, 82, 48, 48, 48, 49, 0, 0, 0, 0, 0]) ∧
    (Fob.pairFob [0, 67, 65, 82, 48, 48, 48, 49, 0, 117, 110, 108, 111, 99, 107, 0, 0,
        49, 0, 0, 0, 0, 0, 0, 0, 67, 65, 82, 48, 48, 48, 49, 0, 0, 0, 0, 0]
      [49, 0, 50, 51, 52, 53, 10] [] (List.replicate 8 0)).map (fun out => out.link)
      = some [⟨PAIR_MAGIC, 24, [67, 65, 82, 48, 48, 48, 49, 0, 117, 110, 108, 111, 99, 107, 0, 0,
        49, 0, 0, 0, 0, 0, 0, 0]⟩] ∧
    Fob.pairFob [0, 67, 65, 82, 48, 48, 48, 49, 0, 117, 110, 108, 111, 99, 107, 0, 0,
        49, 0, 0, 0, 0, 0, 0, 0, 67, 65, 82, 48, 48, 48, 49, 0, 0, 0, 0, 0]
      [49, 50, 51, 52, 53, 54, 55, 56, 10] [] (List.replicate 8 0) = none := by
  decide

/-- C5, amended: for every paired fob record and every operator-entered line,
whenever `pairFob` returns it has sent a PAIR message, whose payload is the
stored 24-byte PairingInfo, if and only if the line has exactly 6 bytes and
its bytes before the first NUL are those of the stored pairing_pin before its
first NUL (the two are equal as NUL-terminated strings); otherwise nothing is
sent; the record is unchanged and nothing is saved in both cases; and
`pairFob` returns for every line of at most 7 bytes. -/
theorem C5_pair_initiator (s line rest stack : List Nat) (t : Nat)
    (link_in : List MESSAGE_PACKET) (hs : s.length = 37) (hp : Fob.paired s = FLASH_PAIRED)
    (hline : ∀ b ∈ line, b ≠ 10 ∧ b ≠ 13) (ht : Fob.lineEnd t) (hstack : stack.length = 8) :
    (∀ out, Fob.pairFob s (line ++ t :: rest) link_in stack = some out →
      out.fob_state_ram = s ∧ out.saved = [] ∧
      out.link = if line.length = 6 ∧
          line.takeWhile (· ≠ 0) = (Fob.pin s).takeWhile (· ≠ 0)
        then [⟨PAIR_MAGIC, 24, Fob.pair_info s⟩] else []) ∧
    (line.length ≤ 7 → ∃ out, Fob.pairFob s (line ++ t :: rest) link_in stack = some out) := by
  refine ⟨?_, ?_⟩
  · intro out h
    obtain ⟨h1, h2⟩ := Fob.pairFob_paired_some s _ stack link_in out hp h
    refine ⟨h1, h2, ?_⟩
    by_cases hlen : line.length < 8
    · unfold Fob.pairFob at h
      rw [if_pos hp, uart_readline_line line stack 0 t rest hline ht (by omega)] at h
      simp only [List.take_zero, List.nil_append, Nat.zero_add] at h
      by_cases h6 : line.length = 6
      · rw [if_pos h6] at h
        obtain ⟨c, hc, hiff⟩ := strcmp_left_terminated line (stack.drop (line.length + 1))
          (s.drop 17) (by simp [hs]; omega)
        have hpin : (s.drop 17).take (line.length + 1) = (Fob.pin s).take 7 := by
          rw [h6, Fob.pin, List.take_take]
          rfl
        rw [hpin, ← List.take_takeWhile, eq_take_iff _ _ 7
          (by have := length_takeWhile_le line; omega)] at hiff
        rw [hc] at h
        dsimp only at h
        by_cases hc0 : c = 0
        · rw [if_pos hc0] at h
          rw [if_pos ⟨h6, hiff.mp hc0⟩, ← Option.some.inj h]
          rfl
        · rw [if_neg hc0] at h
          rw [if_neg (fun hh => hc0 (hiff.mpr hh.2)), ← Option.some.inj h]
      · rw [if_neg h6] at h
        rw [if_neg (fun hh => h6 hh.1), ← Option.some.inj h]
    · unfold Fob.pairFob at h
      rw [if_pos hp, uart_readline_overrun line stack 0 t rest hline ht (by omega)] at h
      simp at h
  · intro hlen
    exact Fob.pairFob_paired_returns s _ stack link_in hs hp
      ⟨line, t, rest, rfl, hline, ht, by omega, hstack⟩

/-- C5, the amended claim at a concrete input: the stored PIN "123456" and the
line "123456". -/
theorem C5_pair_initiator_witness :
    ∃ out, Fob.pairFob [0, 67, 65, 82, 48, 48, 48, 49, 0, 117, 110, 108, 111, 99, 107, 0, 0,
        49, 50, 51, 52, 53, 54, 0, 0, 67, 65, 82, 48, 48, 48, 49, 0, 0, 0, 0, 0]
        ([49, 50, 51, 52, 53, 54] ++ 10 :: []) [] (List.replicate 8 0) = some out ∧
      out.link = [⟨PAIR_MAGIC, 24, [67, 65, 82, 48, 48, 48, 49, 0, 117, 110, 108, 111, 99, 107,
        0, 0, 49, 50, 51, 52, 53, 54, 0, 0]⟩] := by
  have h := C5_pair_initiator
    [0, 67, 65, 82, 48, 48, 48, 49, 0, 117, 110, 108, 111, 99, 107, 0, 0,
      49, 50, 51, 52, 53, 54, 0, 0, 67, 65, 82, 48, 48, 48, 49, 0, 0, 0, 0, 0]
    [49, 50, 51, 52, 53, 54] [] (List.replicate 8 0) 10 [] (by decide) (by decide) (by decide)
    (Or.inl rfl) (by decide)
  obtain ⟨out, hout⟩ := h.2 (by decide)
  refine ⟨out, hout, ?_⟩
  rw [(h.1 out hout).2.2]
  decide

/-! ## C6 and C7: enabling a feature -/

theorem Fob.features_getElem? (s : List Nat) (j : Nat) (hj : j < 3) :
    (Fob.features s)[j]? = s[34 + j]? := by
  simp [Fob.features, List.getElem?_take, hj, List.getElem?_drop]

theorem Fob.car_id_getElem? (s : List Nat) (j : Nat) (hj : j < 8) :
    (Fob.car_id s)[j]? = (s.drop 1)[j]? := by
  simp [Fob.car_id, List.getElem?_take, hj]

/-- What `enableFeature` does on a paired fob once the line `line` has been
read into `uart_buffer`. -/
theorem Fob.enableFeature_line (s line rest stack : List Nat) (t : Nat)
    (link_in : List MESSAGE_PACKET) (hp : Fob.paired s = FLASH_PAIRED)
    (hline : ∀ b ∈ line, b ≠ 10 ∧ b ≠ 13) (ht : Fob.lineEnd t)
    (hlen : line.length < stack.length) :
    Fob.enableFeature s (line ++ t :: rest) link_in stack
      = Fob.enableFeatureAfterRead s (line ++ 0 :: stack.drop (line.length + 1)) rest link_in := by
  unfold Fob.enableFeature
  rw [if_pos hp, uart_readline_line line stack 0 t rest hline ht (by omega)]
  simp only [List.take_zero, List.nil_append, Nat.zero_add]

/-- C6 as stated fails.  The stored car_id is "CAR" followed by NUL bytes and
the payload's car_id is "CAR", NUL, "ABCD": the two differ in four bytes and the
feature is enabled and saved.  With the payload car_id "CAR", line feed, "1234"
`uart_readline` ends the line at the line feed: the car_id read is "CAR", and
the byte 7 that `uart_buffer[8]` happens to hold is enabled and saved. -/
theorem C6_foreign_car_id_accepted :
    Fob.car_id [0, 67, 65, 82, 0, 0, 0, 0, 0, 117, 110, 108, 111, 99, 107, 0, 0,
        49, 50, 51, 52, 53, 54, 0, 0, 67, 65, 82, 0, 0, 0, 0, 0, 0, 0, 0, 0]
      ≠ [67, 65, 82, 0, 65, 66, 67, 68] ∧
    (Fob.enableFeature [0, 67, 65, 82, 0, 0, 0, 0, 0, 117, 110, 108, 111, 99, 107, 0, 0,
        49, 50, 51, 52, 53, 54, 0, 0, 67, 65, 82, 0, 0, 0, 0, 0, 0, 0, 0, 0]
      ([67, 65, 82, 0, 65, 66, 67, 68] ++ [2] ++ [10]) [] (List.replicate 20 0)).map
        (fun out => (Fob.num_active out.fob_state_ram, Fob.features out.fob_state_ram,
          out.saved.length)) = some (1, [2, 0, 0], 1) ∧
    (Fob.enableFeature [0, 67, 65, 82, 0, 0, 0, 0, 0, 117, 110, 108, 111, 99, 107, 0, 0,
        49, 50, 51, 52, 53, 54, 0, 0, 67, 65, 82, 0, 0, 0, 0, 0, 0, 0, 0, 0]
      ([67, 65, 82, 10, 49, 50, 51, 52] ++ [2] ++ [10]) [] (List.replicate 20 7)).map
        (fun out => (Fob.num_active out.fob_state_ram, Fob.features out.fob_state_ram,
          out.saved.length)) = some (1, [7, 0, 0], 1) := by
  decide

/-- C6, amended: for every paired fob record and every enable payload
car_id(8) ‖ feature_id(1) that is sent as a line closed by a line-end byte (10
or 13) and holds no line-end byte itself, so that `uart_readline` delivers it
whole, and whose car_id differs from the stored car_id at a byte position with
no NUL byte of the stored car_id before it (the two differ as NUL-terminated
strings), `enableFeature` returns, leaves the whole record (active_count and
feature_ids included) unchanged and does not call `saveFobState`. -/
theorem C6_enable_foreign_car (s cid rest stack : List Nat) (f t : Nat)
    (link_in : List MESSAGE_PACKET) (hs : s.length = 37) (hp : Fob.paired s = FLASH_PAIRED)
    (hcid : cid.length = 8) (hline : ∀ b ∈ cid ++ [f], b ≠ 10 ∧ b ≠ 13) (ht : Fob.lineEnd t)
    (hstack : stack.length = 20) (i : Nat) (hi : i < 8)
    (hdiff : (Fob.car_id s).getD i 0 ≠ cid.getD i 0)
    (hnul : ∀ j, j < i → (Fob.car_id s).getD j 0 ≠ 0) :
    Fob.enableFeature s (cid ++ [f] ++ t :: rest) link_in stack
      = some ⟨s, [], [], [], rest, link_in⟩ := by
  rw [Fob.enableFeature_line s (cid ++ [f]) rest stack t link_in hp hline ht (by simp; omega)]
  have hlen1 : (s.drop 1).length = 36 := by simp [hs]
  have hget : ∀ j, j < 8 → (s.drop 1)[j]? = some ((Fob.car_id s).getD j 0) := by
    intro j hj
    have hj2 : j < (s.drop 1).length := by omega
    rw [List.getD_eq_getElem?_getD, Fob.car_id_getElem? s j hj, List.getElem?_eq_getElem hj2]
    rfl
  have hb : (cid ++ [f] ++ 0 :: stack.drop ((cid ++ [f]).length + 1))[i]?
      = some (cid.getD i 0) := by
    have hi2 : i < cid.length := by omega
    rw [List.append_assoc, List.getElem?_append_left hi2, List.getD_eq_getElem?_getD,
      List.getElem?_eq_getElem hi2]
    rfl
  obtain ⟨c, hc, hc0⟩ := strcmp_ne_zero_of_diff i (s.drop 1)
    (cid ++ [f] ++ 0 :: stack.drop ((cid ++ [f]).length + 1)) _ _ (hget i hi) hb hdiff
    (by
      intro j hj
      rw [hget j (by omega)]
      intro h
      exact hnul j hj (Option.some.inj h))
  unfold Fob.enableFeatureAfterRead
  rw [hc]
  dsimp only
  rw [if_pos hc0]

/-- C6, the amended claim at a concrete input: the fob of car "CAR0001" is
given the car_id "CAR0002". -/
theorem C6_enable_foreign_car_witness :
    Fob.enableFeature [0, 67, 65, 82, 48, 48, 48, 49, 0, 117, 110, 108, 111, 99, 107, 0, 0,
        49, 50, 51, 52, 53, 54, 0, 0, 67, 65, 82, 48, 48, 48, 49, 0, 0, 0, 0, 0]
      ([67, 65, 82, 48, 48, 48, 50, 0] ++ [2] ++ 10 :: []) [] (List.replicate 20 0)
      = some ⟨[0, 67, 65, 82, 48, 48, 48, 49, 0, 117, 110, 108, 111, 99, 107, 0, 0,
        49, 50, 51, 52, 53, 54, 0, 0, 67, 65, 82, 48, 48, 48, 49, 0, 0, 0, 0, 0], [], [], [], [], []⟩ :=
  C6_enable_foreign_car _ [67, 65, 82, 48, 48, 48, 50, 0] [] (List.replicate 20 0) 2 10 []
    (by decide) (by decide) (by decide) (by decide) (Or.inl rfl) (by decide) 6 (by decide)
    (by decide) (by decide)

/-- `strcmp` of the stored record from `car_id` on against a line that starts
with the same 8 bytes, when these hold a NUL, is `0`. -/
theorem strcmp_same_car_id (cid tail1 tail2 : List Nat) (hnul : 0 ∈ cid) :
    strcmp (cid ++ tail1) (cid ++ tail2) = some 0 := by
  obtain ⟨post, hpost⟩ := zero_mem_split cid hnul
  have h1 : cid ++ tail1 = cid.takeWhile (· ≠ 0) ++ 0 :: (post ++ tail1) := by
    conv_lhs => rw [hpost]
    simp
  have h2 : cid ++ tail2 = cid.takeWhile (· ≠ 0) ++ 0 :: (post ++ tail2) := by
    conv_lhs => rw [hpost]
    simp
  obtain ⟨c, hc, hiff⟩ := strcmp_terminated (cid.takeWhile (· ≠ 0)) (cid.takeWhile (· ≠ 0))
    (post ++ tail1) (post ++ tail2) (takeWhile_ne_zero cid) (takeWhile_ne_zero cid)
  rw [h1, h2, hc, hiff.mpr rfl]

/-- The bytes of the record after a feature has been appended. -/
theorem Fob.appended_getElem? (s : List Nat) (k f v i : Nat) (hs : s.length = 37)
    (hk : k < 3) :
    ((s.set (34 + k) f).set 33 v)[i]?
      = if i = 33 then some v else if i = 34 + k then some f else s[i]? := by
  by_cases h33 : i = 33
  · subst h33
    simp [hs]
  · rw [if_neg h33, List.getElem?_set_ne (fun h => h33 h.symm)]
    by_cases hik : i = 34 + k
    · subst hik
      have hlt : 34 + k < s.length := by omega
      rw [if_pos rfl]
      simp [hlt]
    · rw [if_neg hik, List.getElem?_set_ne (fun h => hik h.symm)]

theorem Fob.not_mem_features_take (s : List Nat) (f k : Nat) (hs : s.length = 37) (hk : k ≤ 3) :
    f ∉ (Fob.features s).take k ↔ ∀ j, j < k → ∃ x, s[34 + 0 + j]? = some x ∧ x ≠ f := by
  constructor
  · intro h j hj
    have hj2 : 34 + j < s.length := by omega
    refine ⟨s[34 + j], by simp, ?_⟩
    intro hx
    apply h
    rw [List.mem_iff_getElem?]
    refine ⟨j, ?_⟩
    rw [List.getElem?_take, if_pos hj, Fob.features_getElem? s j (by omega),
      List.getElem?_eq_getElem hj2, hx]
  · intro h hmem
    rw [List.mem_iff_getElem?] at hmem
    obtain ⟨j, hj⟩ := hmem
    rw [List.getElem?_take] at hj
    by_cases hjk : j < k
    · rw [if_pos hjk, Fob.features_getElem? s j (by omega)] at hj
      obtain ⟨x, hx, hxf⟩ := h j hjk
      simp only [Nat.add_zero] at hx
      rw [hj] at hx
      exact hxf (Option.some.inj hx).symm
    · rw [if_neg hjk] at hj
      exact absurd hj (by simp)

/-- The accepted case of `enableFeature`: the stored car_id holds a NUL, the
payload carries the same car_id, the list is not full and the feature is new. -/
theorem Fob.enableFeature_appends (s cid rest stack : List Nat) (f t k : Nat)
    (link_in : List MESSAGE_PACKET) (hs : s.length = 37) (hp : Fob.paired s = FLASH_PAIRED)
    (hk : Fob.num_active s = k) (hk3 : k < NUM_FEATURES)
    (hcid : Fob.car_id s = cid) (hnul : 0 ∈ cid)
    (hf : f ∉ (Fob.features s).take k)
    (hline : ∀ b ∈ cid ++ [f], b ≠ 10 ∧ b ≠ 13) (ht : Fob.lineEnd t)
    (hstack : stack.length = 20) :
    Fob.enableFeature s (cid ++ [f] ++ t :: rest) link_in stack
      = some ⟨(s.set (34 + k) f).set 33 (k + 1), [], [Fob.str_Enabled],
          [(s.set (34 + k) f).set 33 (k + 1)], rest, link_in⟩ := by
  have hk3b : k < 3 := hk3
  have hcl : cid.length = 8 := by rw [← hcid]; simp [Fob.car_id, hs]
  have hsplit : s.drop 1 = cid ++ s.drop 9 := by
    rw [← hcid, Fob.car_id]
    have : s.drop 9 = (s.drop 1).drop 8 := by rw [List.drop_drop]
    rw [this, List.take_append_drop]
  have hcmp : strcmp (s.drop 1) (cid ++ [f] ++ 0 :: stack.drop ((cid ++ [f]).length + 1))
      = some 0 := by
    rw [hsplit, List.append_assoc]
    exact strcmp_same_car_id cid _ _ hnul
  have hfeat : (cid ++ [f] ++ 0 :: stack.drop ((cid ++ [f]).length + 1)).getD 8 0 = f := by
    rw [List.getD_eq_getElem?_getD, List.append_assoc,
      List.getElem?_append_right (by omega), hcl]
    rfl
  have hsearch : Fob.searchFeature s f 0 k = some false :=
    (Fob.searchFeature_false_iff s f k 0).mpr
      ((Fob.not_mem_features_take s f k hs (by omega)).mp hf)
  have hmod : (k + 1) % 256 = k + 1 := by omega
  have hne : ¬ k = NUM_FEATURES := by omega
  have hin : 34 + k < s.length := by omega
  rw [Fob.enableFeature_line s (cid ++ [f]) rest stack t link_in hp hline ht
    (by simp; omega)]
  unfold Fob.enableFeatureAfterRead
  rw [hcmp]
  dsimp only
  rw [if_neg (by simp), hk, if_neg hne, hfeat, hsearch]
  dsimp only
  rw [if_pos hin, hmod]

/-- C7 as stated fails.  The stored car_id has 8 bytes without a NUL, the
payload carries the same 8 bytes and a new feature id, and the record is left
as it was and nothing is saved.  With the stored car_id "CAR0001" and the
feature id 10, a line feed, `uart_readline` ends the line at the feature byte:
the feature enabled is the NUL that closes the line, 0 and not 10. -/
theorem C7_matching_car_id_rejected :
    Fob.car_id [0, 67, 65, 82, 48, 48, 48, 48, 49, 117, 110, 108, 111, 99, 107, 0, 0,
        49, 50, 51, 52, 53, 54, 0, 0, 67, 65, 82, 48, 48, 48, 48, 49, 0, 0, 0, 0]
      = [67, 65, 82, 48, 48, 48, 48, 49] ∧
    Fob.enableFeature [0, 67, 65, 82, 48, 48, 48, 48, 49, 117, 110, 108, 111, 99, 107, 0, 0,
        49, 50, 51, 52, 53, 54, 0, 0, 67, 65, 82, 48, 48, 48, 48, 49, 0, 0, 0, 0]
      ([67, 65, 82, 48, 48, 48, 48, 49] ++ [2] ++ [10]) [] (List.replicate 20 0)
      = some ⟨[0, 67, 65, 82, 48, 48, 48, 48, 49, 117, 110, 108, 111, 99, 107, 0, 0,
        49, 50, 51, 52, 53, 54, 0, 0, 67, 65, 82, 48, 48, 48, 48, 49, 0, 0, 0, 0], [], [], [], [], []⟩ ∧
    (Fob.enableFeature [0, 67, 65, 82, 48, 48, 48, 49, 0, 117, 110, 108, 111, 99, 107, 0, 0,
        49, 50, 51, 52, 53, 54, 0, 0, 67, 65, 82, 48, 48, 48, 49, 0, 0, 9, 9, 9]
      ([67, 65, 82, 48, 48, 48, 49, 0] ++ [10] ++ [10]) [] (List.replicate 20 7)).map
        (fun out => (Fob.num_active out.fob_state_ram, Fob.features out.fob_state_ram))
      = some (1, [0, 9, 9]) := by
  decide

/-- C7, amended: for every paired fob record whose stored car_id holds a NUL
byte, with active_count = k < 3, and every enable payload that is sent as a
line closed by a line-end byte (10 or 13) and holds no line-end byte itself,
so that `uart_readline` delivers it whole, whose car_id is the stored car_id
and whose feature_id `f` does not occur in feature_ids[0..k), `enableFeature`
returns and afterwards feature_ids[k] = f, active_count = k + 1, every other
byte of the record (the other feature_ids, the paired flag, the PairingInfo
and features.car_id) is unchanged, and the record handed to `saveFobState` is
the new record. -/
theorem C7_enable_success (s cid rest stack : List Nat) (f t k : Nat)
    (link_in : List MESSAGE_PACKET) (hs : s.length = 37) (hp : Fob.paired s = FLASH_PAIRED)
    (hk : Fob.num_active s = k) (hk3 : k < NUM_FEATURES)
    (hcid : Fob.car_id s = cid) (hnul : 0 ∈ cid)
    (hf : f ∉ (Fob.features s).take k)
    (hline : ∀ b ∈ cid ++ [f], b ≠ 10 ∧ b ≠ 13) (ht : Fob.lineEnd t)
    (hstack : stack.length = 20) :
    ∃ out, Fob.enableFeature s (cid ++ [f] ++ t :: rest) link_in stack = some out ∧
      out.fob_state_ram = (s.set (34 + k) f).set 33 (k + 1) ∧
      out.saved = [out.fob_state_ram] ∧
      (Fob.features out.fob_state_ram)[k]? = some f ∧
      Fob.num_active out.fob_state_ram = k + 1 ∧
      (∀ j, j < 3 → j ≠ k → (Fob.features out.fob_state_ram)[j]? = (Fob.features s)[j]?) ∧
      Fob.paired out.fob_state_ram = Fob.paired s ∧
      Fob.pair_info out.fob_state_ram = Fob.pair_info s ∧
      Fob.feature_car_id out.fob_state_ram = Fob.feature_car_id s := by
  have hk3b : k < 3 := hk3
  refine ⟨_, Fob.enableFeature_appends s cid rest stack f t k link_in hs hp hk hk3 hcid hnul hf
    hline ht hstack, rfl, rfl, ?_, ?_, ?_, ?_, ?_, ?_⟩
  · dsimp only
    rw [Fob.features_getElem? _ k hk3b, Fob.appended_getElem? s k f (k + 1) _ hs hk3b,
      if_neg (by omega), if_pos rfl]
  · dsimp only
    rw [Fob.num_active, List.getD_eq_getElem?_getD,
      Fob.appended_getElem? s k f (k + 1) _ hs hk3b, if_pos rfl]
    rfl
  · intro j hj hjk
    dsimp only
    rw [Fob.features_getElem? _ j hj, Fob.features_getElem? _ j hj,
      Fob.appended_getElem? s k f (k + 1) _ hs hk3b, if_neg (by omega), if_neg (by omega)]
  · dsimp only
    rw [Fob.paired_set _ _ _ (by omega), Fob.paired_set _ _ _ (by omega)]
  · dsimp only
    rw [Fob.pair_info_set _ _ _ (by omega), Fob.pair_info_set _ _ _ (by omega)]
  · dsimp only
    rw [Fob.feature_car_id_set _ _ _ (by omega), Fob.feature_car_id_set _ _ _ (by omega)]

/-- C7, the amended claim at a concrete input: the fob of car "CAR0001" with
feature 1 enabled is given feature 2. -/
theorem C7_enable_success_witness :
    ∃ out, Fob.enableFeature [0, 67, 65, 82, 48, 48, 48, 49, 0, 117, 110, 108, 111, 99, 107, 0,
        0, 49, 50, 51, 52, 53, 54, 0, 0, 67, 65, 82, 48, 48, 48, 49, 0, 1, 1, 0, 0]
        ([67, 65, 82, 48, 48, 48, 49, 0] ++ [2] ++ 10 :: []) [] (List.replicate 20 0) = some out ∧
      out.fob_state_ram = [0, 67, 65, 82, 48, 48, 48, 49, 0, 117, 110, 108, 111, 99, 107, 0,
        0, 49, 50, 51, 52, 53, 54, 0, 0, 67, 65, 82, 48, 48, 48, 49, 0, 2, 1, 2, 0] := by
  obtain ⟨out, h1, h2, _⟩ := C7_enable_success
    [0, 67, 65, 82, 48, 48, 48, 49, 0, 117, 110, 108, 111, 99, 107, 0,
      0, 49, 50, 51, 52, 53, 54, 0, 0, 67, 65, 82, 48, 48, 48, 49, 0, 1, 1, 0, 0]
    [67, 65, 82, 48, 48, 48, 49, 0] [] (List.replicate 20 0) 2 10 1 []
    (by decide) (by decide) (by decide) (by decide) (by decide) (by decide) (by decide)
    (by decide) (Or.inl rfl) (by decide)
  exact ⟨out, h1, by rw [h2]; decide⟩

/-! ## C8: enabling the same feature twice -/

/-- The record `enableFeature` leaves does not depend on the bytes of
`uart_buffer` after the NUL that ends a line of 9 bytes or more. -/
theorem Fob.enableFeatureAfterRead_buffer (s e w1 w2 r1 r2 : List Nat)
    (l1 l2 : List MESSAGE_PACKET) (he : 9 ≤ e.length) :
    (Fob.enableFeatureAfterRead s (e ++ 0 :: w1) r1 l1).map (fun o => o.fob_state_ram)
      = (Fob.enableFeatureAfterRead s (e ++ 0 :: w2) r2 l2).map (fun o => o.fob_state_ram) := by
  have hg : ∀ w : List Nat, (e ++ 0 :: w).getD 8 0 = e.getD 8 0 := by
    intro w
    rw [List.getD_eq_getElem?_getD, List.getD_eq_getElem?_getD,
      List.getElem?_append_left (by omega)]
  unfold Fob.enableFeatureAfterRead
  rw [strcmp_tail e (s.drop 1) w1 w2, hg w1, hg w2]
  cases strcmp (s.drop 1) (e ++ 0 :: w2) with
  | none => rfl
  | some c =>
    dsimp only
    by_cases hc : c ≠ 0
    · rw [if_pos hc, if_pos hc]; rfl
    · rw [if_neg hc, if_neg hc]
      by_cases hfull : Fob.num_active s = NUM_FEATURES
      · rw [if_pos hfull, if_pos hfull]; rfl
      · rw [if_neg hfull, if_neg hfull]
        cases Fob.searchFeature s (e.getD 8 0) 0 (Fob.num_active s) with
        | none => rfl
        | some b =>
          cases b with
          | true => rfl
          | false =>
            dsimp only
            by_cases hlen : 34 + Fob.num_active s < s.length
            · rw [if_pos hlen, if_pos hlen]; rfl
            · rw [if_neg hlen, if_neg hlen]

/-- After `enableFeature` has returned on a 9-byte line, `enableFeature` on
the same line returns and leaves the record as the first call left it. -/
theorem Fob.enableFeatureAfterRead_again (s e w1 w2 r1 r2 : List Nat)
    (l1 l2 : List MESSAGE_PACKET) (o1 : Fob.Out) (hs : s.length = 37) (he : e.length = 9)
    (h1 : Fob.enableFeatureAfterRead s (e ++ 0 :: w1) r1 l1 = some o1) :
    ∃ o2, Fob.enableFeatureAfterRead o1.fob_state_ram (e ++ 0 :: w2) r2 l2 = some o2 ∧
      o2.fob_state_ram = o1.fob_state_ram := by
  have hg : ∀ w : List Nat, (e ++ 0 :: w).getD 8 0 = e.getD 8 0 := by
    intro w
    rw [List.getD_eq_getElem?_getD, List.getD_eq_getElem?_getD,
      List.getElem?_append_left (by omega)]
  rcases Fob.enableFeatureAfterRead_some s _ r1 l1 o1 h1 with ha | hb
  · have hbuf := Fob.enableFeatureAfterRead_buffer s e w2 w1 r2 r1 l2 l1 (by omega)
    rw [h1, ha] at hbuf
    subst ha
    simp only [Option.map_some', Option.map_eq_some'] at hbuf
    obtain ⟨o2, h2, h3⟩ := hbuf
    exact ⟨o2, h2, h3⟩
  · obtain ⟨hcmp, hfull, _, hlen, ho⟩ := hb
    have hn : Fob.num_active s < 3 := by omega
    rw [hg w1] at ho
    subst ho
    dsimp only
    have hmod : (Fob.num_active s + 1) % 256 = Fob.num_active s + 1 := by omega
    rw [hmod]
    have hna : Fob.num_active ((s.set (34 + Fob.num_active s) (e.getD 8 0)).set 33
        (Fob.num_active s + 1)) = Fob.num_active s + 1 := by
      rw [Fob.num_active, List.getD_eq_getElem?_getD,
        Fob.appended_getElem? s _ _ _ _ hs hn, if_pos rfl]
      rfl
    have hpre : (((s.set (34 + Fob.num_active s) (e.getD 8 0)).set 33
        (Fob.num_active s + 1)).drop 1).take (e.length + 1) = (s.drop 1).take (e.length + 1) := by
      rw [List.take_drop, List.take_drop, take_set_of_le _ _ _ _ (by omega),
        take_set_of_le _ _ _ _ (by omega)]
    have hcmp2 : strcmp (((s.set (34 + Fob.num_active s) (e.getD 8 0)).set 33
        (Fob.num_active s + 1)).drop 1) (e ++ 0 :: w2) = some 0 := by
      rw [strcmp_of_take_eq e _ (s.drop 1) w2 hpre, strcmp_tail e (s.drop 1) w2 w1, hcmp]
    unfold Fob.enableFeatureAfterRead
    rw [hcmp2]
    dsimp only
    rw [if_neg (by simp), hna]
    by_cases hfull2 : Fob.num_active s + 1 = NUM_FEATURES
    · rw [if_pos hfull2]
      exact ⟨_, rfl, rfl⟩
    · rw [if_neg hfull2, hg w2]
      have hfound := Fob.searchFeature_true
        ((s.set (34 + Fob.num_active s) (e.getD 8 0)).set 33 (Fob.num_active s + 1))
        (e.getD 8 0) (Fob.num_active s) 0 (Fob.num_active s + 1) (by omega)
        (by rw [Fob.appended_getElem? s _ _ _ _ hs hn, if_neg (by omega), if_pos (by omega)])
        (by simp; omega)
      rw [hfound]
      exact ⟨_, rfl, rfl⟩

/-- C8 as stated fails.  On the paired fob with an empty feature list whose
stored car_id "CAR00001" has no NUL byte, enabling feature 2 twice with that
car_id leaves active_count = 0.  With the stored car_id "C" and the payload
"C", line feed, "C", line feed, "AAAA", 2, `uart_readline` ends the line at the
first line feed and each call enables the byte that its `uart_buffer[8]`
happens to hold: one call gives active_count = 1, two calls give 2. -/
theorem C8_twice_differs_from_once :
    ((Fob.enableFeature [0, 67, 65, 82, 48, 48, 48, 48, 49, 117, 110, 108, 111, 99, 107, 0, 0,
        49, 50, 51, 52, 53, 54, 0, 0, 67, 65, 82, 48, 48, 48, 48, 49, 0, 0, 0, 0]
      ([67, 65, 82, 48, 48, 48, 48, 49, 2] ++ 10 :: ([67, 65, 82, 48, 48, 48, 48, 49, 2] ++ [10]))
      [] (List.replicate 20 0)).bind
        (fun o => Fob.enableFeature o.fob_state_ram o.host_in o.link_in (List.replicate 20 0))).map
      (fun o => Fob.num_active o.fob_state_ram) = some 0 ∧
    (Fob.enableFeature [0, 67, 0, 0, 0, 0, 0, 0, 0, 117, 110, 108, 111, 99, 107, 0, 0,
        49, 50, 51, 52, 53, 54, 0, 0, 67, 0, 0, 0, 0, 0, 0, 0, 0, 0, 0, 0]
      ([67, 10, 67, 10, 65, 65, 65, 65, 2] ++ 10 :: ([67, 10, 67, 10, 65, 65, 65, 65, 2] ++ [10]))
      [] (List.replicate 20 7)).map
      (fun o => (Fob.num_active o.fob_state_ram, Fob.features o.fob_state_ram))
      = some (1, [7, 0, 0]) ∧
    ((Fob.enableFeature [0, 67, 0, 0, 0, 0, 0, 0, 0, 117, 110, 108, 111, 99, 107, 0, 0,
        49, 50, 51, 52, 53, 54, 0, 0, 67, 0, 0, 0, 0, 0, 0, 0, 0, 0, 0, 0]
      ([67, 10, 67, 10, 65, 65, 65, 65, 2] ++ 10 :: ([67, 10, 67, 10, 65, 65, 65, 65, 2] ++ [10]))
      [] (List.replicate 20 7)).bind
        (fun o => Fob.enableFeature o.fob_state_ram o.host_in o.link_in (List.replicate 20 9))).map
      (fun o => (Fob.num_active o.fob_state_ram, Fob.features o.fob_state_ram))
      = some (2, [7, 9, 0]) := by
  decide

/-- C8, amended: for every fob record and every 9-byte enable payload that is
sent, each time, as a line closed by a line-end byte (10 or 13) and holds no
line-end byte itself, so that `uart_readline` delivers it whole,
`enableFeature` with the payload twice yields the same record as once (neither
has a result when the first call has none); when active_count is at most 3
both calls return and active_count has grown by at most one; and on a paired
fob with an empty feature list whose stored car_id holds a NUL byte and is the
car_id of the payload, enabling feature 2 twice gives active_count = 1 and
feature_ids = [2]. -/
theorem C8_enable_idempotent (s e rest stack stack2 : List Nat) (t t2 : Nat)
    (link_in : List MESSAGE_PACKET) (hs : s.length = 37) (he : e.length = 9)
    (hline : ∀ b ∈ e, b ≠ 10 ∧ b ≠ 13) (ht : Fob.lineEnd t) (ht2 : Fob.lineEnd t2)
    (hstack : stack.length = 20) (hstack2 : stack2.length = 20) :
    ((Fob.enableFeature s (e ++ t :: (e ++ t2 :: rest)) link_in stack).bind
        (fun o => Fob.enableFeature o.fob_state_ram o.host_in o.link_in stack2)).map
          (fun o => o.fob_state_ram)
      = (Fob.enableFeature s (e ++ t :: (e ++ t2 :: rest)) link_in stack).map
          (fun o => o.fob_state_ram) ∧
    (Fob.num_active s ≤ NUM_FEATURES →
      ∃ o1 o2, Fob.enableFeature s (e ++ t :: (e ++ t2 :: rest)) link_in stack = some o1 ∧
        Fob.enableFeature o1.fob_state_ram o1.host_in o1.link_in stack2 = some o2 ∧
        o2.fob_state_ram = o1.fob_state_ram ∧
        Fob.num_active o2.fob_state_ram ≤ Fob.num_active s + 1) ∧
    (Fob.paired s = FLASH_PAIRED → Fob.num_active s = 0 → 0 ∈ Fob.car_id s →
      e = Fob.car_id s ++ [2] →
      ∃ o1 o2, Fob.enableFeature s (e ++ t :: (e ++ t2 :: rest)) link_in stack = some o1 ∧
        Fob.enableFeature o1.fob_state_ram o1.host_in o1.link_in stack2 = some o2 ∧
        Fob.num_active o2.fob_state_ram = 1 ∧
        (Fob.features o2.fob_state_ram).take (Fob.num_active o2.fob_state_ram) = [2]) := by
  -- the second call, after a first call that returned
  have hsecond : ∀ o1, Fob.enableFeature s (e ++ t :: (e ++ t2 :: rest)) link_in stack = some o1 →
      ∃ o2, Fob.enableFeature o1.fob_state_ram o1.host_in o1.link_in stack2 = some o2 ∧
        o2.fob_state_ram = o1.fob_state_ram := by
    intro o1 h1
    by_cases hp : Fob.paired s = FLASH_PAIRED
    · rw [Fob.enableFeature_line s e _ stack t link_in hp hline ht (by omega)] at h1
      have hrest : o1.host_in = e ++ t2 :: rest ∧ o1.link_in = link_in ∧
          Fob.paired o1.fob_state_ram = FLASH_PAIRED := by
        rcases Fob.enableFeatureAfterRead_some s _ _ _ o1 h1 with ha | hb
        · subst ha
          exact ⟨rfl, rfl, hp⟩
        · obtain ⟨_, _, _, _, ho⟩ := hb
          subst ho
          refine ⟨rfl, rfl, ?_⟩
          dsimp only
          rw [Fob.paired_set _ _ _ (by omega), Fob.paired_set _ _ _ (by omega)]
          exact hp
      obtain ⟨hh, hl, hp1⟩ := hrest
      rw [hh, hl, Fob.enableFeature_line _ e rest stack2 t2 link_in hp1 hline ht2 (by omega)]
      exact Fob.enableFeatureAfterRead_again s e _ _ _ rest link_in link_in o1 hs he h1
    · unfold Fob.enableFeature at h1
      rw [if_neg hp] at h1
      have := Option.some.inj h1
      subst this
      refine ⟨⟨s, [], [], [], e ++ t :: (e ++ t2 :: rest), link_in⟩, ?_, rfl⟩
      unfold Fob.enableFeature
      rw [if_neg hp]
  refine ⟨?_, ?_, ?_⟩
  · cases h1 : Fob.enableFeature s (e ++ t :: (e ++ t2 :: rest)) link_in stack with
    | none => rfl
    | some o1 =>
      obtain ⟨o2, h2, h3⟩ := hsecond o1 h1
      simp only [Option.some_bind, h2, Option.map_some', h3]
  · intro hn
    obtain ⟨o1, h1⟩ := Fob.enableFeature_returns s (e ++ t :: (e ++ t2 :: rest)) stack link_in
      hs ⟨e, t, _, rfl, hline, ht, by omega, hstack⟩ hn
    obtain ⟨o2, h2, h3⟩ := hsecond o1 h1
    refine ⟨o1, o2, h1, h2, h3, ?_⟩
    rw [h3]
    by_cases hp : Fob.paired s = FLASH_PAIRED
    · rw [Fob.enableFeature_line s e _ stack t link_in hp hline ht (by omega)] at h1
      rcases Fob.enableFeatureAfterRead_some s _ _ _ o1 h1 with ha | hb
      · subst ha
        dsimp only
        omega
      · obtain ⟨_, _, _, hlen, ho⟩ := hb
        subst ho
        dsimp only
        have hlt : Fob.num_active s < 3 := by omega
        rw [Fob.num_active, List.getD_eq_getElem?_getD,
          Fob.appended_getElem? s _ _ _ _ hs hlt, if_pos rfl]
        simp only [Option.getD_some]
        have := Nat.mod_le (s.getD 33 0 + 1) 256
        simpa [Fob.num_active] using this
    · unfold Fob.enableFeature at h1
      rw [if_neg hp] at h1
      have := Option.some.inj h1
      subst this
      dsimp only
      omega
  · intro hp hn hnul hcar
    subst hcar
    have h1 := Fob.enableFeature_appends s (Fob.car_id s) (Fob.car_id s ++ [2] ++ t2 :: rest)
      stack 2 t 0 link_in hs hp hn (by decide) rfl hnul (by simp) hline ht hstack
    obtain ⟨o2, h2, h3⟩ := hsecond _ h1
    refine ⟨_, o2, h1, h2, ?_, ?_⟩
    · rw [h3]
      dsimp only
      rw [Fob.num_active, List.getD_eq_getElem?_getD,
        Fob.appended_getElem? s 0 2 1 _ hs (by omega), if_pos rfl]
      rfl
    · rw [h3]
      dsimp only
      have hna : Fob.num_active ((s.set (34 + 0) 2).set 33 (0 + 1)) = 1 := by
        rw [Fob.num_active, List.getD_eq_getElem?_getD,
          Fob.appended_getElem? s 0 2 1 _ hs (by omega), if_pos rfl]
        rfl
      rw [hna]
      apply List.ext_getElem?
      intro j
      rw [List.getElem?_take]
      by_cases hj : j < 1
      · have hj0 : j = 0 := by omega
        subst hj0
        rw [if_pos hj, Fob.features_getElem? _ 0 (by omega),
          Fob.appended_getElem? s 0 2 1 _ hs (by omega), if_neg (by omega), if_pos rfl]
        rfl
      · rw [if_neg hj]
        have : [2].length ≤ j := by simp; omega
        rw [List.getElem?_eq_none this]

/-- C8, the amended claim at a concrete input: the fob of car "CAR0001" with an empty feature
list is given feature 2 twice. -/
theorem C8_enable_idempotent_witness :
    ∃ o1 o2, Fob.enableFeature [0, 67, 65, 82, 48, 48, 48, 49, 0, 117, 110, 108, 111, 99, 107,
        0, 0, 49, 50, 51, 52, 53, 54, 0, 0, 67, 65, 82, 48, 48, 48, 49, 0, 0, 0, 0, 0]
        ([67, 65, 82, 48, 48, 48, 49, 0, 2] ++ 10 :: ([67, 65, 82, 48, 48, 48, 49, 0, 2] ++ 10 :: []))
        [] (List.replicate 20 0) = some o1 ∧
      Fob.enableFeature o1.fob_state_ram o1.host_in o1.link_in (List.replicate 20 0) = some o2 ∧
      Fob.num_active o2.fob_state_ram = 1 ∧
      (Fob.features o2.fob_state_ram).take (Fob.num_active o2.fob_state_ram) = [2] :=
  (C8_enable_idempotent
    [0, 67, 65, 82, 48, 48, 48, 49, 0, 117, 110, 108, 111, 99, 107,
      0, 0, 49, 50, 51, 52, 53, 54, 0, 0, 67, 65, 82, 48, 48, 48, 49, 0, 0, 0, 0, 0]
    [67, 65, 82, 48, 48, 48, 49, 0, 2] [] (List.replicate 20 0) (List.replicate 20 0) 10 10 []
    (by decide) (by decide) (by decide) (Or.inl rfl) (Or.inl rfl) (by decide) (by decide)).2.2
    (by decide) (by decide) (by decide) (by decide)

/-! ## C9: the FeatureState invariant -/

theorem Fob.featureInv_of_tail (s r : List Nat) (h : r.drop 33 = s.drop 33)
    (hinv : Fob.FeatureInv s) : Fob.FeatureInv r := by
  have hn : Fob.num_active r = Fob.num_active s := by
    simp only [Fob.num_active, getD_eq_headD_drop, h]
  have hf : Fob.features r = Fob.features s := by
    have e : 34 = 33 + 1 := rfl
    simp only [Fob.features]
    rw [e, ← List.drop_drop, ← List.drop_drop (l := s), h]
  unfold Fob.FeatureInv
  rw [hn, hf]
  exact hinv

/-- Appending a feature that the search did not find keeps the invariant. -/
theorem Fob.featureInv_appended (s : List Nat) (f : Nat) (hs : s.length = 37)
    (hinv : Fob.FeatureInv s) (hlen : 34 + Fob.num_active s < s.length)
    (hsearch : Fob.searchFeature s f 0 (Fob.num_active s) = some false) :
    Fob.FeatureInv ((s.set (34 + Fob.num_active s) f).set 33 ((Fob.num_active s + 1) % 256)) := by
  have hn : Fob.num_active s < 3 := by omega
  have hmod : (Fob.num_active s + 1) % 256 = Fob.num_active s + 1 := by omega
  rw [hmod]
  have hna : Fob.num_active ((s.set (34 + Fob.num_active s) f).set 33 (Fob.num_active s + 1))
      = Fob.num_active s + 1 := by
    rw [Fob.num_active, List.getD_eq_getElem?_getD,
      Fob.appended_getElem? s _ _ _ _ hs hn, if_pos rfl]
    rfl
  have hnot : f ∉ (Fob.features s).take (Fob.num_active s) :=
    (Fob.not_mem_features_take s f _ hs (by omega)).mpr
      ((Fob.searchFeature_false_iff s f _ 0).mp hsearch)
  have hfl : (Fob.features s).length = 3 := by simp [Fob.features, hs]
  have htake : (Fob.features ((s.set (34 + Fob.num_active s) f).set 33
      (Fob.num_active s + 1))).take (Fob.num_active s + 1)
      = (Fob.features s).take (Fob.num_active s) ++ [f] := by
    apply List.ext_getElem?
    intro j
    have hal : ((Fob.features s).take (Fob.num_active s)).length = Fob.num_active s := by
      rw [List.length_take, hfl]; omega
    rw [List.getElem?_take]
    by_cases hj : j < Fob.num_active s + 1
    · rw [if_pos hj, Fob.features_getElem? _ j (by omega),
        Fob.appended_getElem? s _ _ _ _ hs hn, if_neg (by omega)]
      by_cases hjn : j = Fob.num_active s
      · rw [if_pos (by omega), List.getElem?_append_right (by omega), hal, hjn]
        simp
      · rw [if_neg (by omega), List.getElem?_append_left (by omega), List.getElem?_take,
          if_pos (by omega), Fob.features_getElem? _ j (by omega)]
    · rw [if_neg hj, List.getElem?_eq_none (by simp [hal]; omega)]
  refine ⟨by rw [hna]; have h3 : NUM_FEATURES = 3 := rfl; omega, ?_⟩
  rw [hna, htake]
  rw [List.nodup_append]
  refine ⟨hinv.2, List.nodup_singleton f, ?_⟩
  intro a ha hb
  have : a = f := by simpa using hb
  subst this
  exact hnot ha

/-- One fob operation keeps the length of the record and the invariant. -/
theorem Fob.step_featureInv (s : List Nat) (op : Fob.Op) (out : Fob.Out)
    (hs : s.length = 37) (hinv : Fob.FeatureInv s) (hok : Fob.pairInputOk s op)
    (h : Fob.step s op = some out) :
    out.fob_state_ram.length = 37 ∧ Fob.FeatureInv out.fob_state_ram := by
  cases op with
  | pair host_in link_in stack =>
    by_cases hp : Fob.paired s = FLASH_PAIRED
    · obtain ⟨h1, _⟩ := Fob.pairFob_paired_some s host_in stack link_in out hp h
      rw [h1]
      exact ⟨hs, hinv⟩
    · rcases hok with hp2 | hmsg
      · exact absurd hp2 hp
      · obtain ⟨payload, rest, k, hrecv, hpl, hk⟩ := hmsg
        have hk8 : k < 8 := by
          have := strlen_lt _ _ hk
          simp [hpl] at this
          omega
        have hr := Fob.pairFob_responder s payload host_in stack link_in rest k hs hp hrecv
          hpl hk
        simp only [Fob.step] at h
        rw [hr] at h
        have := Option.some.inj h
        subst this
        dsimp only
        refine ⟨?_, Fob.featureInv_of_tail s _ (Fob.responder_tail s payload k hpl hk8) hinv⟩
        simp [hpl, hs]
        omega
  | enable host_in link_in stack =>
    simp only [Fob.step, Fob.enableFeature] at h
    by_cases hp : Fob.paired s = FLASH_PAIRED
    · rw [if_pos hp] at h
      cases hr : uart_readline host_in stack 0 with
      | none => rw [hr] at h; simp at h
      | some r =>
        obtain ⟨buf, n, rest⟩ := r
        rw [hr] at h
        dsimp only at h
        rcases Fob.enableFeatureAfterRead_some s buf rest link_in out h with h1 | h1
        · subst h1
          exact ⟨hs, hinv⟩
        · obtain ⟨_, _, hsearch, hlen, h1⟩ := h1
          subst h1
          dsimp only
          exact ⟨by simp [hs], Fob.featureInv_appended s _ hs hinv hlen hsearch⟩
    · rw [if_neg hp] at h
      have := Option.some.inj h
      subst this
      exact ⟨hs, hinv⟩
  | unlock host_in link_in =>
    simp only [Fob.step, Option.some.injEq] at h
    subst h
    unfold Fob.unlockCar
    split <;> exact ⟨hs, hinv⟩
  | start host_in link_in =>
    simp only [Fob.step, Option.some.injEq] at h
    subst h
    unfold Fob.startCar
    split <;> exact ⟨hs, hinv⟩

theorem Fob.run_featureInv (ops : List Fob.Op) :
    ∀ (s r : List Nat), s.length = 37 → Fob.FeatureInv s →
      (∀ op ∈ ops, Fob.isEnable op) → Fob.run s ops = some r →
      r.length = 37 ∧ Fob.FeatureInv r := by
  induction ops with
  | nil =>
    intro s r hs hinv _ h
    simp only [Fob.run, Option.some.injEq] at h
    subst h
    exact ⟨hs, hinv⟩
  | cons op ops ih =>
    intro s r hs hinv hall h
    unfold Fob.run at h
    cases hst : Fob.step s op with
    | none => rw [hst] at h; simp at h
    | some out =>
      rw [hst] at h
      dsimp only at h
      have hen : Fob.isEnable op := hall op (by simp)
      have hok : Fob.pairInputOk s op := by
        cases op with
        | pair _ _ _ => exact absurd hen (by simp [Fob.isEnable])
        | enable _ _ _ => trivial
        | unlock _ _ => trivial
        | start _ _ => trivial
      obtain ⟨h1, h2⟩ := Fob.step_featureInv s op out hs hinv hok hst
      exact ih out.fob_state_ram r h1 h2 (fun o ho => hall o (by simp [ho])) h

/-- One fob operation returns when the PAIR message of an unpaired fob is
well formed and the operator line of a paired fob fits. -/
theorem Fob.step_returns (s : List Nat) (op : Fob.Op)
    (hs : s.length = 37) (hinv : Fob.FeatureInv s) (hok : Fob.pairInputOk s op)
    (hfit : Fob.lineInputFits s op) :
    ∃ out, Fob.step s op = some out := by
  cases op with
  | pair host_in link_in stack =>
    by_cases hp : Fob.paired s = FLASH_PAIRED
    · exact Fob.pairFob_paired_returns s host_in stack link_in hs hp (hfit hp)
    · rcases hok with hp2 | hmsg
      · exact absurd hp2 hp
      · obtain ⟨payload, rest, k, hrecv, hpl, hk⟩ := hmsg
        exact ⟨_, Fob.pairFob_responder s payload host_in stack link_in rest k hs hp hrecv
          hpl hk⟩
  | enable host_in link_in stack =>
    by_cases hp : Fob.paired s = FLASH_PAIRED
    · exact Fob.enableFeature_returns s host_in stack link_in hs (hfit hp) hinv.1
    · simp only [Fob.step, Fob.enableFeature]
      rw [if_neg hp]
      exact ⟨_, rfl⟩
  | unlock host_in link_in => exact ⟨_, rfl⟩
  | start host_in link_in => exact ⟨_, rfl⟩

theorem Fob.run_returns (ops : List Fob.Op) :
    ∀ (s : List Nat), s.length = 37 → Fob.FeatureInv s →
      (∀ op ∈ ops, Fob.isFittingEnable op) →
      ∃ r, Fob.run s ops = some r ∧ Fob.FeatureInv r := by
  induction ops with
  | nil =>
    intro s _ hinv _
    exact ⟨s, rfl, hinv⟩
  | cons op ops ih =>
    intro s hs hinv hall
    have hen : Fob.isFittingEnable op := hall op (by simp)
    have hok : Fob.pairInputOk s op := by
      cases op with
      | pair _ _ _ => exact absurd hen (by simp [Fob.isFittingEnable])
      | enable _ _ _ => trivial
      | unlock _ _ => trivial
      | start _ _ => trivial
    have hfit : Fob.lineInputFits s op := by
      cases op with
      | pair _ _ _ => exact absurd hen (by simp [Fob.isFittingEnable])
      | enable _ _ _ => exact fun _ => hen
      | unlock _ _ => trivial
      | start _ _ => trivial
    obtain ⟨out, hst⟩ := Fob.step_returns s op hs hinv hok hfit
    obtain ⟨h1, h2⟩ := Fob.step_featureInv s op out hs hinv hok hst
    obtain ⟨r, hr, hri⟩ := ih out.fob_state_ram h1 h2 (fun o ho => hall o (by simp [ho]))
    refine ⟨r, ?_, hri⟩
    unfold Fob.run
    rw [hst]
    exact hr

/-- C9 as stated fails.  A fob that is not paired, with an empty feature
list, receives a PAIR message of declared length 36 that carries 200 in the
place of active_count: `pairFob` returns with active_count = 200.  The same
happens with a 24-byte PAIR payload whose car_id has no NUL byte and whose
password starts with the bytes 200 and 0.  And on a paired fob with an empty
feature list `enableFeature` on a line of 20 bytes stores the closing NUL past
`uart_buffer` and has no result, so there is no record that keeps the
predicate. -/
theorem C9_pairing_breaks_invariant :
    Fob.num_active (255 :: List.replicate 36 0) = 0 ∧
    (Fob.pairFob (255 :: List.replicate 36 0) [] [⟨PAIR_MAGIC, 36,
        [67, 65, 82, 48, 48, 48, 49, 0, 117, 110, 108, 111, 99, 107, 0, 0,
          49, 50, 51, 52, 53, 54, 0, 0, 0, 0, 0, 0, 0, 0, 0, 0, 200, 7, 7, 7]⟩] []).map
      (fun out => Fob.num_active out.fob_state_ram) = some 200 ∧
    (Fob.pairFob (255 :: List.replicate 36 0) [] [⟨PAIR_MAGIC, 24,
        [67, 65, 82, 48, 48, 48, 48, 49, 200, 0, 0, 0, 0, 0, 0, 0,
          49, 50, 51, 52, 53, 54, 0, 0]⟩] []).map
      (fun out => Fob.num_active out.fob_state_ram) = some 200 ∧
    Fob.num_active (0 :: List.replicate 36 0) = 0 ∧
    Fob.enableFeature (0 :: List.replicate 36 0) (List.replicate 20 65 ++ [10]) []
      (List.replicate 20 0) = none := by
  decide

/-- C9, amended: the predicate "active_count ≤ 3 and feature_ids[0..active_count)
has no duplicates" holds for a record with an empty feature list.  From a
record that satisfies it: every operation that returns keeps it, for
`enableFeature`, `unlockCar`, `startCar` and `pairFob` on a paired fob with
every input, and for `pairFob` on a fob that is not paired when the PAIR
message has a 24-byte payload whose car_id holds a NUL byte; no sequence of
`enableFeature` calls that returns makes active_count exceed 3; such an
operation returns whenever the operator line that `pairFob` (fewer than 8
bytes) or `enableFeature` (fewer than 20 bytes) reads on a paired fob is
complete and fits `uart_buffer`; and every sequence of `enableFeature` calls
whose lines are complete and have fewer than 20 bytes returns, with
active_count at most 3. -/
theorem C9_feature_invariant (s : List Nat) (hs : s.length = 37) :
    (Fob.num_active s = 0 → Fob.FeatureInv s) ∧
    (Fob.FeatureInv s → ∀ op out, Fob.pairInputOk s op → Fob.step s op = some out →
      Fob.FeatureInv out.fob_state_ram) ∧
    (Fob.FeatureInv s → ∀ ops r, (∀ op ∈ ops, Fob.isEnable op) → Fob.run s ops = some r →
      Fob.num_active r ≤ NUM_FEATURES) ∧
    (Fob.FeatureInv s → ∀ op, Fob.pairInputOk s op → Fob.lineInputFits s op →
      ∃ out, Fob.step s op = some out) ∧
    (Fob.FeatureInv s → ∀ ops, (∀ op ∈ ops, Fob.isFittingEnable op) →
      ∃ r, Fob.run s ops = some r ∧ Fob.num_active r ≤ NUM_FEATURES) := by
  refine ⟨?_, ?_, ?_, ?_, ?_⟩
  · intro h0
    unfold Fob.FeatureInv
    rw [h0]
    exact ⟨Nat.zero_le _, by simp⟩
  · intro hinv op out hok h
    exact (Fob.step_featureInv s op out hs hinv hok h).2
  · intro hinv ops r hall h
    exact (Fob.run_featureInv ops s r hs hinv hall h).2.1
  · intro hinv op hok hfit
    exact Fob.step_returns s op hs hinv hok hfit
  · intro hinv ops hall
    obtain ⟨r, hr, hri⟩ := Fob.run_returns ops s hs hinv hall
    exact ⟨r, hr, hri.1⟩

/-- C9, the amended claim at a concrete input: a fob with the features 1, 2
and 3 enabled is asked for feature 4 and then for feature 5. -/
theorem C9_feature_invariant_witness :
    Fob.run [0, 67, 65, 82, 48, 48, 48, 49, 0, 117, 110, 108, 111, 99, 107,
        0, 0, 49, 50, 51, 52, 53, 54, 0, 0, 67, 65, 82, 48, 48, 48, 49, 0, 3, 1, 2, 3]
      [Fob.Op.enable [67, 65, 82, 48, 48, 48, 49, 0, 4, 10] [] (List.replicate 20 0),
       Fob.Op.enable [67, 65, 82, 48, 48, 48, 49, 0, 5, 10] [] (List.replicate 20 0)]
      = some [0, 67, 65, 82, 48, 48, 48, 49, 0, 117, 110, 108, 111, 99, 107,
        0, 0, 49, 50, 51, 52, 53, 54, 0, 0, 67, 65, 82, 48, 48, 48, 49, 0, 3, 1, 2, 3] ∧
    Fob.num_active [0, 67, 65, 82, 48, 48, 48, 49, 0, 117, 110, 108, 111, 99, 107,
        0, 0, 49, 50, 51, 52, 53, 54, 0, 0, 67, 65, 82, 48, 48, 48, 49, 0, 3, 1, 2, 3]
      ≤ NUM_FEATURES :=
  ⟨by decide,
   (C9_feature_invariant
      [0, 67, 65, 82, 48, 48, 48, 49, 0, 117, 110, 108, 111, 99, 107,
        0, 0, 49, 50, 51, 52, 53, 54, 0, 0, 67, 65, 82, 48, 48, 48, 49, 0, 3, 1, 2, 3]
      (by decide)).2.2.1 ⟨by decide, by decide⟩
      [Fob.Op.enable [67, 65, 82, 48, 48, 48, 49, 0, 4, 10] [] (List.replicate 20 0),
       Fob.Op.enable [67, 65, 82, 48, 48, 48, 49, 0, 5, 10] [] (List.replicate 20 0)]
      _ (by intro op hop; simp at hop; rcases hop with h | h <;> subst h <;> trivial)
      (by decide)⟩

/-! ## C10: the car's start handler -/

/-- The loop of `startCar` over feature ids that all lie in the receive
buffer. -/
theorem Car.startLoop_eq (eeprom : Nat → Nat) (cid fids w : List Nat) (n : Nat)
    (rest : List MESSAGE_PACKET) (hcid : cid.length = 8) (k : Nat) :
    ∀ i, i + k ≤ fids.length →
      Car.startLoop eeprom (cid ++ n :: (fids ++ w)) rest i k
        = ⟨[],
          ((fids.drop i).take k).map (fun f =>
            EEPROMRead eeprom ((FEATURE_END + 2 ^ 32 - (f * FEATURE_SIZE) % 2 ^ 32) % 2 ^ 32)
              FEATURE_SIZE),
          ((fids.drop i).take k).map (fun f =>
            ((FEATURE_END + 2 ^ 32 - (f * FEATURE_SIZE) % 2 ^ 32) % 2 ^ 32, FEATURE_SIZE)),
          Car.Status.returned, rest⟩ := by
  induction k with
  | zero => intro i _; simp [Car.startLoop]
  | succ k ih =>
    intro i hi
    have hlt : i < fids.length := by omega
    have hget : (cid ++ n :: (fids ++ w))[9 + i]? = some fids[i] := by
      rw [List.getElem?_append_right (by omega), hcid]
      have e : 9 + i - 8 = i + 1 := by omega
      rw [e, List.getElem?_cons_succ, List.getElem?_append_left hlt,
        List.getElem?_eq_getElem hlt]
    have hdrop : (fids.drop i).take (k + 1) = fids[i] :: (fids.drop (i + 1)).take k := by
      rw [List.drop_eq_getElem_cons hlt, List.take_succ_cons]
    unfold Car.startLoop
    rw [hget]
    dsimp only
    rw [ih (i + 1) (by omega), hdrop]
    simp

/-- C10 as stated fails.  With the compiled-in car_id "CAR" a START payload
whose car_id is "CAR", NUL, "XXXX" is answered with a feature record although
the two car_ids differ; with the compiled-in car_id "CAR00001" of 8 bytes a
START payload with the same 8 bytes and one feature id is not answered; and
the record of feature id 32 is read from the 32-bit address 0xFFFFFFC0, which
is not 0x7C0 − 64 · 32. -/
theorem C10_start_car_id_and_address :
    [67, 65, 82, 0, 88, 88, 88, 88] ≠ [67, 65, 82, 0, 0, 0, 0, 0] ∧
    (Car.startCar [67, 65, 82] (fun a => a % 256) (List.replicate 256 0)
      [⟨START_MAGIC, 12, [67, 65, 82, 0, 88, 88, 88, 88, 1, 1, 0, 0]⟩]).reads
      = [(0x780, 64)] ∧
    (Car.startCar [67, 65, 82, 48, 48, 48, 48, 49] (fun a => a % 256) (List.replicate 256 0)
      [⟨START_MAGIC, 12, [67, 65, 82, 48, 48, 48, 48, 49, 1, 1, 0, 0]⟩]).reads = [] ∧
    (Car.startCar [67, 65, 82] (fun a => a % 256) (List.replicate 256 0)
      [⟨START_MAGIC, 12, [67, 65, 82, 0, 0, 0, 0, 0, 1, 32, 0, 0]⟩]).reads
      = [(0xFFFFFFC0, 64)] ∧
    ((0xFFFFFFC0 : Nat) : Int) ≠ 0x7C0 - 64 * 32 := by
  decide

/-- C10, amended: for a compiled-in car_id of at most 7 bytes and every
received START payload car_id(8) ‖ active_count(1) ‖ feature_ids that holds
at least active_count feature ids, `startCar` returns without sending a board
message; the records it transmits are none when the payload's car_id and the
compiled-in car_id differ as NUL-terminated strings, and otherwise one 64-byte
record per entry feature_ids[i], i < active_count, in that order, each read
from the 32-bit EEPROM address (0x7C0 − 64 · feature_ids[i]) mod 2^32, which is
0x7C0 − 64 · feature_ids[i] for a feature id of at most 31. -/
theorem C10_start_car (CAR_ID cid fids stack : List Nat) (n : Nat) (eeprom : Nat → Nat)
    (rest : List MESSAGE_PACKET) (hC : CAR_ID.length ≤ 7) (hcid : cid.length = 8)
    (hn : n ≤ fids.length) (hlen : (cid ++ n :: fids).length ≤ 255)
    (hstack : stack.length = 256) :
    (Car.startCar CAR_ID eeprom stack
        (⟨START_MAGIC, (cid ++ n :: fids).length, cid ++ n :: fids⟩ :: rest)).link = [] ∧
    (Car.startCar CAR_ID eeprom stack
        (⟨START_MAGIC, (cid ++ n :: fids).length, cid ++ n :: fids⟩ :: rest)).status
      = Car.Status.returned ∧
    (CAR_ID.takeWhile (· ≠ 0) ≠ cid.takeWhile (· ≠ 0) →
      (Car.startCar CAR_ID eeprom stack
        (⟨START_MAGIC, (cid ++ n :: fids).length, cid ++ n :: fids⟩ :: rest)).host = [] ∧
      (Car.startCar CAR_ID eeprom stack
        (⟨START_MAGIC, (cid ++ n :: fids).length, cid ++ n :: fids⟩ :: rest)).reads = []) ∧
    (CAR_ID.takeWhile (· ≠ 0) = cid.takeWhile (· ≠ 0) →
      (Car.startCar CAR_ID eeprom stack
        (⟨START_MAGIC, (cid ++ n :: fids).length, cid ++ n :: fids⟩ :: rest)).host
        = (fids.take n).map (fun f =>
            EEPROMRead eeprom ((FEATURE_END + 2 ^ 32 - (f * FEATURE_SIZE) % 2 ^ 32) % 2 ^ 32) 64) ∧
      (Car.startCar CAR_ID eeprom stack
        (⟨START_MAGIC, (cid ++ n :: fids).length, cid ++ n :: fids⟩ :: rest)).reads
        = (fids.take n).map (fun f =>
            ((FEATURE_END + 2 ^ 32 - (f * FEATURE_SIZE) % 2 ^ 32) % 2 ^ 32, 64))) ∧
    (∀ f, f ≤ 31 →
      (FEATURE_END + 2 ^ 32 - (f * FEATURE_SIZE) % 2 ^ 32) % 2 ^ 32 = 0x7C0 - 64 * f) := by
  have hplen : (cid ++ n :: fids).length ≤ stack.length := by omega
  have hbuf : (cid ++ n :: fids) ++ stack.drop (cid ++ n :: fids).length
      = cid ++ n :: (fids ++ stack.drop (cid ++ n :: fids).length) := by simp
  have hblen : CAR_ID.length < (cid ++ n :: (fids ++ stack.drop (cid ++ n :: fids).length)).length := by
    simp [hcid]; omega
  obtain ⟨c, hc, hiff⟩ := strcmp_left_terminated CAR_ID []
    (cid ++ n :: (fids ++ stack.drop (cid ++ n :: fids).length)) hblen
  have htk : (cid ++ n :: (fids ++ stack.drop (cid ++ n :: fids).length)).take (CAR_ID.length + 1)
      = cid.take (CAR_ID.length + 1) := by
    rw [List.take_append_of_le_length (by omega)]
  rw [htk, ← List.take_takeWhile, eq_take_iff _ _ _
    (by have := length_takeWhile_le CAR_ID; omega)] at hiff
  have h8 : (cid ++ n :: (fids ++ stack.drop (cid ++ n :: fids).length))[8]? = some n := by
    rw [List.getElem?_append_right (by omega), hcid]
    simp
  have hstart : Car.startCar CAR_ID eeprom stack
      (⟨START_MAGIC, (cid ++ n :: fids).length, cid ++ n :: fids⟩ :: rest)
      = if c ≠ 0 then ⟨[], [], [], Car.Status.returned, rest⟩
        else Car.startLoop eeprom
          (cid ++ n :: (fids ++ stack.drop (cid ++ n :: fids).length)) rest 0 n := by
    have hP : CAR_ID ++ [0] = CAR_ID ++ 0 :: [] := rfl
    simp only [Car.startCar, receive_board_message_by_type, if_true, List.take_length,
      store_zero stack _ hplen, hbuf, hP, hc, h8]
  rw [hstart]
  have hloop := Car.startLoop_eq eeprom cid fids (stack.drop (cid ++ n :: fids).length) n rest
    hcid n 0 (by omega)
  rw [List.drop_zero] at hloop
  refine ⟨?_, ?_, ?_, ?_, ?_⟩
  · by_cases h0 : c ≠ 0
    · rw [if_pos h0]
    · rw [if_neg h0, hloop]
  · by_cases h0 : c ≠ 0
    · rw [if_pos h0]
    · rw [if_neg h0, hloop]
  · intro hne
    have h0 : c ≠ 0 := fun h => hne (hiff.mp h)
    rw [if_pos h0]
    exact ⟨rfl, rfl⟩
  · intro heq
    have h0 : ¬ c ≠ 0 := fun h => h (hiff.mpr heq)
    rw [if_neg h0, hloop]
    exact ⟨rfl, rfl⟩
  · intro f hf
    have h1 : f * FEATURE_SIZE < 2 ^ 32 := by
      unfold FEATURE_SIZE; omega
    rw [Nat.mod_eq_of_lt h1]
    unfold FEATURE_END FEATURE_SIZE
    omega

/-- C10, the amended claim at the scenario of the spec: the car "CAR0001"
receives a START payload with the features 1 and 2. -/
theorem C10_start_car_witness :
    (Car.startCar [67, 65, 82, 48, 48, 48, 49] (fun a => a % 256) (List.replicate 256 0)
        (⟨START_MAGIC, ([67, 65, 82, 48, 48, 48, 49, 0] ++ 2 :: [1, 2, 0]).length,
          [67, 65, 82, 48, 48, 48, 49, 0] ++ 2 :: [1, 2, 0]⟩ :: [])).reads
      = [(0x780, 64), (0x740, 64)] := by
  rw [((C10_start_car [67, 65, 82, 48, 48, 48, 49] [67, 65, 82, 48, 48, 48, 49, 0] [1, 2, 0]
    (List.replicate 256 0) 2 (fun a => a % 256) [] (by decide) (by decide) (by decide)
    (by decide) (List.length_replicate _ _)).2.2.2.1 (by decide)).2]
  decide

/-! ## C11: PAIR messages of another length -/

/-- The record after `pairFob` on a fob that is not paired and receives a
PAIR message of any declared length `n` up to 36: the `n` bytes are stored
from `pair_info` on, and `car_id`, with its first NUL at index `k`, is copied
as a string. -/
theorem Fob.pairFob_responder_len (s payload host_in stack : List Nat)
    (link_in rest : List MESSAGE_PACKET) (n k : Nat)
    (hs : s.length = 37) (hunpaired : Fob.paired s ≠ FLASH_PAIRED)
    (hrecv : receive_board_message_by_type link_in PAIR_MAGIC
      = some (⟨PAIR_MAGIC, n, payload⟩, rest))
    (hp : payload.length = n) (hn : n ≤ 36)
    (hk : strlen ((payload ++ s.drop (n + 1)).take 8) = some k) :
    Fob.pairFob s host_in link_in stack
      = some ⟨FLASH_PAIRED :: ((payload ++ s.drop (n + 1)).take 24 ++
            ((payload ++ s.drop (n + 1)).take (k + 1) ++
              ((payload ++ s.drop (n + 1)).drop 24).drop (k + 1))),
          [], [Fob.str_Paired],
          [FLASH_PAIRED :: ((payload ++ s.drop (n + 1)).take 24 ++
            ((payload ++ s.drop (n + 1)).take (k + 1) ++
              ((payload ++ s.drop (n + 1)).drop 24).drop (k + 1)))],
          host_in, rest⟩ := by
  obtain ⟨x, s1, rfl⟩ : ∃ x s1, s = x :: s1 := by
    cases s with
    | nil => simp at hs
    | cons x s1 => exact ⟨x, s1, rfl⟩
  have hs1 : s1.length = 36 := by simpa using hs
  rw [List.drop_succ_cons] at hk ⊢
  obtain ⟨M, hM⟩ : ∃ M, M = payload ++ s1.drop n := ⟨_, rfl⟩
  rw [← hM] at hk ⊢
  have hMlen : M.length = 36 := by rw [hM]; simp [hp, hs1]; omega
  have hk8 : k < 8 := by
    have := strlen_lt _ _ hk
    simp [hMlen] at this
    omega
  have hstore : store (x :: s1) 1 (List.take n payload) = some (x :: M) := by
    have := store_at [x] s1 payload 1 rfl (by omega)
    rw [List.take_of_length_le (by omega), hM]
    simpa [hp] using this
  have hlen : strlen M = some k := by
    have := strlen_append (M.take 8) (M.drop 8) k hk
    rwa [List.take_append_drop] at this
  have h2 : (M.take (k + 1)).length = k + 1 := by simp [hMlen]; omega
  have hstore2 : store (FLASH_PAIRED :: M) 25 (M.take (k + 1))
      = some (FLASH_PAIRED :: (M.take 24 ++ (M.take (k + 1) ++ (M.drop 24).drop (k + 1)))) := by
    have h := store_at (FLASH_PAIRED :: M.take 24) (M.drop 24) (M.take (k + 1)) 25
      (by simp [hMlen]) (by simp [hMlen]; omega)
    have hsplit : (FLASH_PAIRED :: M.take 24) ++ M.drop 24 = FLASH_PAIRED :: M := by
      rw [List.cons_append, List.take_append_drop]
    rw [hsplit, h2] at h
    rw [h]
    rfl
  have hcond : 1 + k < 25 ∨ 25 + k < 1 := Or.inl (by omega)
  simp only [Fob.pairFob, if_neg hunpaired, hrecv, hstore, List.set_cons_zero, strcpy,
    List.drop_succ_cons, List.drop_zero, hlen, hcond, if_true, hstore2]

/-- C11 as stated fails: a fob that is not paired receives a PAIR message of
declared length 8 and `pairFob` does not discard it: the fob is PAIRED
afterwards and the record has been saved. -/
theorem C11_short_pair_message_accepted :
    Fob.paired (255 :: List.replicate 36 0) ≠ FLASH_PAIRED ∧
    (Fob.pairFob (255 :: List.replicate 36 0) []
        [⟨PAIR_MAGIC, 8, [67, 65, 82, 48, 48, 48, 49, 0]⟩] []).map
      (fun out => (Fob.paired out.fob_state_ram, Fob.car_id out.fob_state_ram,
        out.saved.length)) = some (FLASH_PAIRED, [67, 65, 82, 48, 48, 48, 49, 0], 1) := by
  decide

/-- C11, amended: `pairFob` does not look at the declared length.  For every
fob record that is not paired and every received PAIR message of a declared
length `n` up to 36 that leaves a NUL byte in the record's car_id, `pairFob`
returns with the `n` payload bytes stored from the start of the PairingInfo on
(those after the 24th lie in the FeatureState), paired = PAIRED, and the
record, which is no longer the record before, handed to `saveFobState`. -/
theorem C11_pair_any_length (s payload host_in stack : List Nat)
    (link_in rest : List MESSAGE_PACKET) (n k : Nat)
    (hs : s.length = 37) (hunpaired : Fob.paired s ≠ FLASH_PAIRED)
    (hrecv : receive_board_message_by_type link_in PAIR_MAGIC
      = some (⟨PAIR_MAGIC, n, payload⟩, rest))
    (hp : payload.length = n) (hn : n ≤ 36)
    (hk : strlen ((payload ++ s.drop (n + 1)).take 8) = some k) :
    ∃ out, Fob.pairFob s host_in link_in stack = some out ∧
      Fob.paired out.fob_state_ram = FLASH_PAIRED ∧
      Fob.pair_info out.fob_state_ram = (payload ++ s.drop (n + 1)).take 24 ∧
      (Fob.pair_info out.fob_state_ram).take n = payload.take 24 ∧
      out.fob_state_ram ≠ s ∧
      out.saved = [out.fob_state_ram] := by
  have hslen : (s.drop (n + 1)).length = 36 - n := by simp [hs]
  have hMlen : (payload ++ s.drop (n + 1)).length = 36 := by
    rw [List.length_append, hp, hslen]; omega
  have hpi : Fob.pair_info
      (FLASH_PAIRED :: ((payload ++ s.drop (n + 1)).take 24 ++
        ((payload ++ s.drop (n + 1)).take (k + 1) ++
          ((payload ++ s.drop (n + 1)).drop 24).drop (k + 1))))
      = (payload ++ s.drop (n + 1)).take 24 := by
    have h24 : ((payload ++ s.drop (n + 1)).take 24).length = 24 := by simp [hMlen]
    simp only [Fob.pair_info, List.drop_succ_cons, List.drop_zero]
    exact List.take_left' h24
  refine ⟨_, Fob.pairFob_responder_len s payload host_in stack link_in rest n k hs hunpaired
    hrecv hp hn hk, ?_, hpi, ?_, ?_, rfl⟩
  · simp [Fob.paired]
  · rw [hpi, List.take_take]
    by_cases h24 : n ≤ 24
    · rw [Nat.min_eq_left h24, List.take_append_of_le_length (by omega),
        List.take_of_length_le (by omega), List.take_of_length_le (by omega)]
    · rw [Nat.min_eq_right (by omega), List.take_append_of_le_length (by omega)]
  · intro h
    apply hunpaired
    rw [← h]
    simp [Fob.paired]

/-- C11, the amended claim at a concrete input: a PAIR message of declared
length 8. -/
theorem C11_pair_any_length_witness :
    ∃ out, Fob.pairFob (255 :: List.replicate 36 0) []
        [⟨PAIR_MAGIC, 8, [67, 65, 82, 48, 48, 48, 49, 0]⟩] [] = some out ∧
      Fob.paired out.fob_state_ram = FLASH_PAIRED ∧
      out.saved = [out.fob_state_ram] := by
  obtain ⟨out, h1, h2, _, _, _, h6⟩ :=
    C11_pair_any_length (255 :: List.replicate 36 0) [67, 65, 82, 48, 48, 48, 49, 0] [] []
      [⟨PAIR_MAGIC, 8, [67, 65, 82, 48, 48, 48, 49, 0]⟩] [] 8 7
      (by decide) (by decide) (by decide) (by decide) (by decide) (by decide)
  exact ⟨out, h1, h2, h6⟩

/-! ## C12: the boot sequence of the fob -/

/-- The boot sequence of a fob built as unpaired whose flash record is not
marked PAIRED: the record in RAM is the uninitialised one, changed and saved
only when its `num_active` byte happens to be `0xFF`. -/
theorem Fob.boot_unpaired_build (PAIRED : Nat) (PASSWORD PAIR_PIN CAR_ID flash ram : List Nat)
    (hb : PAIRED ≠ 1) (hf : Fob.paired flash ≠ FLASH_PAIRED) :
    Fob.boot PAIRED PASSWORD PAIR_PIN CAR_ID flash ram
      = if Fob.num_active ram = 0xFF then
          some ⟨ram.set 33 0, ram.set 33 0, [ram.set 33 0]⟩
        else some ⟨ram, flash, []⟩ := by
  have h1 : ¬ (PAIRED = 1 ∧ Fob.paired flash = FLASH_UNPAIRED) := fun h => hb h.1
  unfold Fob.boot
  simp only [if_neg h1, if_neg hf, List.nil_append]

/-- C12 fails on the code: on a fob built as unpaired with an erased flash
record, when the uninitialised record in RAM holds zero bytes the boot
sequence leaves it as it is, with the paired byte equal to the PAIRED
sentinel, and saves nothing; when it holds the byte 7 throughout, active_count
stays 7 and nothing is saved. -/
theorem C12_boot_keeps_uninitialised_ram :
    Fob.paired (List.replicate 37 255) ≠ FLASH_PAIRED ∧
    Fob.boot 0 [] [] [] (List.replicate 37 255) (List.replicate 37 0)
      = some ⟨List.replicate 37 0, List.replicate 37 255, []⟩ ∧
    Fob.paired (List.replicate 37 0) = FLASH_PAIRED ∧
    Fob.boot 0 [] [] [] (List.replicate 37 255) (List.replicate 37 7)
      = some ⟨List.replicate 37 7, List.replicate 37 255, []⟩ ∧
    Fob.num_active (List.replicate 37 7) = 7 := by
  decide

/-! ## C13: the message type tags -/

/-- One round of the loop of `startCar` on a feature id for which the
subtraction does not wrap. -/
theorem Car.startLoop_one (eeprom : Nat → Nat) (buffer : List Nat)
    (rest : List MESSAGE_PACKET) (i f : Nat) (hi : buffer[9 + i]? = some f)
    (hf : f * FEATURE_SIZE ≤ FEATURE_END) :
    (Car.startLoop eeprom buffer rest i 1).reads
      = [(FEATURE_END - f * FEATURE_SIZE, FEATURE_SIZE)] := by
  have h1 : f * FEATURE_SIZE < 2 ^ 32 := by
    unfold FEATURE_SIZE FEATURE_END at hf
    unfold FEATURE_SIZE
    omega
  have h2 : (FEATURE_END + 2 ^ 32 - (f * FEATURE_SIZE) % 2 ^ 32) % 2 ^ 32
      = FEATURE_END - f * FEATURE_SIZE := by
    rw [Nat.mod_eq_of_lt h1]
    unfold FEATURE_SIZE FEATURE_END at hf ⊢
    omega
  simp only [Car.startLoop, hi, h2]

/-- C14: for feature ids `f` and `g` between 1 and 31 that `startCar` finds in
a START payload, `f · FEATURE_SIZE` does not exceed `FEATURE_END`, so the
32-bit address `FEATURE_END − f · FEATURE_SIZE` is computed without wraparound;
the read of the record is at 0x7C0 − 64 · f with 64 bytes; the regions of two
distinct ids are disjoint; and the region ends at or before the start 0x7C0
of the 64-byte unlock-message region read by `unlockCar`. -/
theorem C14_feature_addresses (eeprom : Nat → Nat) (buffer : List Nat)
    (rest : List MESSAGE_PACKET) (i j f g : Nat)
    (hi : buffer[9 + i]? = some f) (hj : buffer[9 + j]? = some g)
    (hf1 : 1 ≤ f) (hf31 : f ≤ 31) (hg1 : 1 ≤ g) (hg31 : g ≤ 31) :
    f * FEATURE_SIZE ≤ FEATURE_END ∧ f * FEATURE_SIZE < 2 ^ 32 ∧
    (Car.startLoop eeprom buffer rest i 1).reads = [(0x7C0 - 64 * f, 64)] ∧
    (Car.startLoop eeprom buffer rest j 1).reads = [(0x7C0 - 64 * g, 64)] ∧
    64 * f ≤ 0x7C0 ∧
    (f ≠ g → (0x7C0 - 64 * f) + 64 ≤ 0x7C0 - 64 * g ∨ (0x7C0 - 64 * g) + 64 ≤ 0x7C0 - 64 * f) ∧
    (0x7C0 - 64 * f) + FEATURE_SIZE ≤ UNLOCK_EEPROM_LOC ∧
    UNLOCK_EEPROM_LOC = 0x7C0 ∧ UNLOCK_EEPROM_SIZE = 64 := by
  have hF : f * FEATURE_SIZE ≤ FEATURE_END := by unfold FEATURE_SIZE FEATURE_END; omega
  have hG : g * FEATURE_SIZE ≤ FEATURE_END := by unfold FEATURE_SIZE FEATURE_END; omega
  have ef : FEATURE_END - f * FEATURE_SIZE = 0x7C0 - 64 * f := by
    unfold FEATURE_SIZE FEATURE_END; omega
  have eg : FEATURE_END - g * FEATURE_SIZE = 0x7C0 - 64 * g := by
    unfold FEATURE_SIZE FEATURE_END; omega
  refine ⟨hF, ?_, ?_, ?_, ?_, ?_, ?_, rfl, rfl⟩
  · unfold FEATURE_SIZE; omega
  · rw [Car.startLoop_one eeprom buffer rest i f hi hF, ef]; rfl
  · rw [Car.startLoop_one eeprom buffer rest j g hj hG, eg]; rfl
  · omega
  · intro hne
    omega
  · unfold FEATURE_SIZE UNLOCK_EEPROM_LOC
    omega

/-- C14 at a concrete input: a START payload with the feature ids 1 and 31. -/
theorem C14_feature_addresses_witness :
    (Car.startLoop (fun a => a % 256) [67, 65, 82, 48, 48, 48, 49, 0, 2, 1, 31, 0] [] 0 1).reads
      = [(0x780, 64)] ∧
    (Car.startLoop (fun a => a % 256) [67, 65, 82, 48, 48, 48, 49, 0, 2, 1, 31, 0] [] 1 1).reads
      = [(0, 64)] := by
  have h := C14_feature_addresses (fun a => a % 256)
    [67, 65, 82, 48, 48, 48, 49, 0, 2, 1, 31, 0] [] 0 1 1 31 (by decide) (by decide)
    (by decide) (by decide) (by decide) (by decide)
  exact ⟨h.2.2.1, h.2.2.2.1⟩

end ECTF
